import Mathlib

/-!
# go-distributed-db: placement, membership, cache and replication engine

A shallow embedding of the controller (`DBController`) and of the storage node
(`DBNode`) of the key-value store, followed by the properties established
about them.

Conventions of the embedding:

* Go machine integers are `Nat` / `Int` with the wrap-around written out
  (`toUint32`, `toInt32`, `% 2 ^ 64`).
* A Go run-time panic (index out of range, nil dereference, integer division by
  zero) is the result `none`.
* Global variables (`g_network`, `g_dbNetwork`, `g_id`, `g_dataCache`, ...) are
  fields of an explicit state that is passed in and returned.
* `time.Now().Unix()` is the argument `now`.
-/

namespace DistDB

/-! ## Machine integers -/

/-- Conversion of an integer to `uint32`. -/
def toUint32 (x : Int) : Nat := (x % 2 ^ 32).toNat

/-- Conversion of an integer to `int32` (two's complement). -/
def toInt32 (x : Int) : Int := (x + 2 ^ 31) % 2 ^ 32 - 2 ^ 31

/-! ## Data model (`main.go`, `datahandler.go`) -/

/-- The type `DBNodeState` with its four constants. -/
inductive DBNodeState where
  | NODESTATE_STARTING
  | NODESTATE_READY
  | NODESTATE_UNREACHABLE
  | NODESTATE_DEAD
deriving DecidableEq, Repr

/-- The struct `DBNode`; `ID` is an `int32`. -/
structure DBNode where
  Addr : String
  ID : Int
  State : DBNodeState
deriving DecidableEq, Repr

/-- The struct `DBNetwork`; `NumNodes` and `ReplicationFactor` are `uint32`. -/
structure DBNetwork where
  Nodes : List DBNode
  NumNodes : Nat
  ReplicationFactor : Nat
deriving DecidableEq, Repr

/-- The struct `DBEntry`. -/
structure DBEntry where
  Key : String
  Value : String
deriving DecidableEq, Repr

/-- The struct `DBChunk`; `Owner` is a `uint32`. -/
structure DBChunk where
  Entries : List DBEntry
  Owner : Nat
deriving DecidableEq, Repr

/-! ## Placement (`datahandler.go`) -/

/-- The constant `offset64` of Go's `hash/fnv`. -/
def fnvOffset64 : Nat := 14695981039346656037

/-- The constant `prime64` of Go's `hash/fnv`. -/
def fnvPrime64 : Nat := 1099511628211

/-- The method `Write` of the hash returned by `fnv.New64()`: for each byte the
state is multiplied by the prime (modulo 2^64) and then XORed with the byte. -/
def fnvWrite64 (h : Nat) (data : List UInt8) : Nat :=
  data.foldl (fun hash c => ((hash * fnvPrime64) % 2 ^ 64) ^^^ c.toNat) h

/-- The method `DBEntry.Hash`: `fnv.New64()`, `Write` of the key bytes, `Sum64`. -/
def DBEntry.Hash (entry : DBEntry) : Nat :=
  fnvWrite64 fnvOffset64 entry.Key.toUTF8.data.toList

/-- The loop of `GetTargetNodes`: `count` iterations, each storing `nodeID` and
stepping it with `nodeID = (nodeID + 1) % NumNodes` in `uint32` arithmetic. -/
def targetLoop (numNodes : Nat) : Nat → Nat → List Nat
  | 0, _ => []
  | count + 1, nodeID =>
    nodeID :: targetLoop numNodes count (((nodeID + 1) % 2 ^ 32) % numNodes)

/-- The method `DBEntry.GetTargetNodes` over the network view `g_dbNetwork`.
`entry.Hash() % uint64(NumNodes)` panics when `NumNodes` is zero. -/
def GetTargetNodes (g_dbNetwork : DBNetwork) (entry : DBEntry) : Option (List Nat) :=
  if g_dbNetwork.NumNodes = 0 then none
  else
    some (targetLoop g_dbNetwork.NumNodes g_dbNetwork.ReplicationFactor
      ((entry.Hash % g_dbNetwork.NumNodes) % 2 ^ 32))

/-! ## Controller membership (`nodeutils.go`, `DBController/main.go`) -/

/-- The method `DBNetwork.OnUpdated`: one notification per index below
`NumNodes`; indexing `Nodes[i]` panics when `NumNodes` exceeds the length.
The result is the list of notified nodes. -/
def DBNetwork.OnUpdated (network : DBNetwork) : Option (List DBNode) :=
  if network.NumNodes ≤ network.Nodes.length then some (network.Nodes.take network.NumNodes)
  else none

/-- The search loop of `RemoveNode`: `remaining` iterations from index `i`;
the result is `deleteIndex` (`-1` when no node has the ID). -/
def findDeleteIndex (nodes : List DBNode) (id : Int) : Nat → Nat → Option Int
  | 0, _ => some (-1)
  | remaining + 1, i =>
    match nodes[i]? with
    | none => none
    | some n => if n.ID = id then some (i : Int) else findDeleteIndex nodes id remaining (i + 1)

/-- The statement `Nodes[i].ID--` on one node, in `int32` arithmetic. -/
def decrementID (n : DBNode) : DBNode := { n with ID := toInt32 (n.ID - 1) }

/-- One iteration of the compaction loop of `RemoveNode`:
`Nodes[i], Nodes[i+1] = Nodes[i+1], Nodes[i]` followed by `Nodes[i].ID--`. -/
def swapAndDecrement (nodes : List DBNode) (i : Nat) : Option (List DBNode) :=
  match nodes[i]?, nodes[i + 1]? with
  | some a, some b => some ((nodes.set i (decrementID b)).set (i + 1) a)
  | _, _ => none

/-- The compaction loop of `RemoveNode`: `remaining` iterations from index `i`. -/
def compactLoop : Nat → Nat → List DBNode → Option (List DBNode)
  | 0, _, nodes => some nodes
  | remaining + 1, i, nodes => (swapAndDecrement nodes i).bind (compactLoop remaining (i + 1))

/-- The method `DBNetwork.RemoveNode`. With `deleteIndex == -1` the compaction
loop reads `Nodes[-1]` (or, on an empty list, the truncation is `Nodes[:-1]`):
both panic. -/
def DBNetwork.RemoveNode (network : DBNetwork) (node : DBNode) : Option DBNetwork :=
  if network.Nodes.length = 1 then
    let network1 : DBNetwork :=
      { network with Nodes := [], NumNodes := toUint32 ((network.NumNodes : Int) - 1) }
    network1.OnUpdated.bind (fun _ => some network1)
  else
    match findDeleteIndex network.Nodes node.ID network.NumNodes 0 with
    | none => none
    | some deleteIndex =>
      if deleteIndex < 0 then none
      else
        match compactLoop (network.Nodes.length - 1 - deleteIndex.toNat) deleteIndex.toNat
            network.Nodes with
        | none => none
        | some nodes =>
          let network1 : DBNetwork :=
            { network with
              Nodes := nodes.take (nodes.length - 1),
              NumNodes := toUint32 ((network.NumNodes : Int) - 1) }
          network1.OnUpdated.bind (fun _ => some network1)

/-- The critical section of `HealthCheckAndAdd` after a successful probe:
`append(g_network.Nodes, node)` and `g_network.NumNodes++`. -/
def appendNode (g_network : DBNetwork) (node : DBNode) : DBNetwork :=
  { g_network with
    Nodes := g_network.Nodes ++ [node],
    NumNodes := toUint32 ((g_network.NumNodes : Int) + 1) }

/-- The decision of `HandleRFUpdate` on the parsed parameter `newRF`: the new
network and whether the request was accepted (204) or rejected (406). -/
def HandleRFUpdate (g_network : DBNetwork) (newRF : Int) : DBNetwork × Bool :=
  if newRF ≠ (g_network.ReplicationFactor : Int) ∧ newRF > 0 ∧
      newRF ≤ (g_network.NumNodes : Int) then
    ({ g_network with ReplicationFactor := toUint32 newRF }, true)
  else (g_network, false)

/-- Invariant I1: `Nodes[i].ID == i` for every index. -/
def DBNetwork.I1 (network : DBNetwork) : Prop :=
  ∀ i (h : i < network.Nodes.length), (network.Nodes.get ⟨i, h⟩).ID = (i : Int)

instance (network : DBNetwork) : Decidable network.I1 := by
  unfold DBNetwork.I1; infer_instance

/-- Invariant I2: `1 ≤ ReplicationFactor ≤ NumNodes`. -/
def DBNetwork.I2 (network : DBNetwork) : Prop :=
  1 ≤ network.ReplicationFactor ∧ network.ReplicationFactor ≤ network.NumNodes

instance (network : DBNetwork) : Decidable network.I2 := by
  unfold DBNetwork.I2; infer_instance

/-! ## Go maps

A Go `map` is an association list in which a key is bound by its first pair. -/

namespace GoMap

/-- The lookup `m[k]` with its `found` flag. -/
def get {κ ν : Type} [DecidableEq κ] : List (κ × ν) → κ → Option ν
  | [], _ => none
  | (k1, v) :: m, k => if k1 = k then some v else get m k

/-- The assignment `m[k] = v`. -/
def set {κ ν : Type} [DecidableEq κ] : List (κ × ν) → κ → ν → List (κ × ν)
  | [], k, v => [(k, v)]
  | (k1, v1) :: m, k, v => if k1 = k then (k, v) :: m else (k1, v1) :: set m k v

/-- The built-in `delete(m, k)`. -/
def delete {κ ν : Type} [DecidableEq κ] : List (κ × ν) → κ → List (κ × ν)
  | [], _ => []
  | (k1, v1) :: m, k => if k1 = k then delete m k else (k1, v1) :: delete m k

end GoMap

/-! ## LRU cache (`lru_cache.go`)

A `*list.Element` is an address (a natural number); `elements` gives the
`Value` stored at each address and `next` is the address the next `PushBack`
allocates. The `container/list` itself is the list `data` of the addresses
linked into it, front first; `e.list == l` holds exactly for those. -/

/-- The struct `CacheItem`. -/
structure CacheItem where
  data : String
  createdAt : Int
deriving DecidableEq, Repr

/-- The constant `CACHE_ITEM_EXPIRY_TIME_S`. -/
def CACHE_ITEM_EXPIRY_TIME_S : Int := 300

/-- The struct `LRUCache` (the mutex left out). -/
structure LRUCache where
  elements : Nat → CacheItem
  next : Nat
  data : List Nat
  lookupTable : List (String × Nat)
  size : Nat

/-- The function `MakeLRUCache`. -/
def MakeLRUCache (size : Nat) : LRUCache :=
  { elements := fun _ => ⟨"", 0⟩, next := 0, data := [], lookupTable := [], size := size }

/-- The method `List.Remove` of `container/list`: unlinks `e` if it is linked. -/
def listRemove (data : List Nat) (e : Nat) : List Nat := data.erase e

/-- The method `List.MoveToBack` of `container/list`: nothing happens when `e`
is not linked into the list or is already its last element. -/
def listMoveToBack (data : List Nat) (e : Nat) : List Nat :=
  if e ∉ data ∨ data.getLast? = some e then data else data.erase e ++ [e]

/-- The method `LRUCache.Find` at clock reading `now`. -/
def LRUCache.Find (cache : LRUCache) (key : String) (now : Int) : (DBEntry × Bool) × LRUCache :=
  match GoMap.get cache.lookupTable key with
  | some element =>
    if now - (cache.elements element).createdAt > CACHE_ITEM_EXPIRY_TIME_S then
      ((⟨"", ""⟩, false),
        { cache with
          data := listRemove cache.data element,
          lookupTable := GoMap.delete cache.lookupTable key })
    else
      ((⟨key, (cache.elements element).data⟩, true),
        { cache with data := listMoveToBack cache.data element })
  | none => ((⟨"", ""⟩, false), cache)

/-- The eviction branch of `LRUCache.Add`: the front element is unlinked and
`delete(cache.lookupTable, deleted)` is called with the `data` field of the
unlinked item. `Front()` of an empty list is nil and `Remove(nil)` panics. -/
def LRUCache.evictFront (cache : LRUCache) : Option LRUCache :=
  match cache.data.head? with
  | none => none
  | some frontEl =>
    let deleted := (cache.elements frontEl).data
    some { cache with
      data := listRemove cache.data frontEl,
      lookupTable := GoMap.delete cache.lookupTable deleted }

/-- The tail of `LRUCache.Add`: `PushBack` of a new item and its registration
in the lookup table. -/
def LRUCache.pushBack (cache : LRUCache) (entry : DBEntry) (now : Int) : LRUCache :=
  let newCacheItem := cache.next
  { cache with
    elements := fun e => if e = newCacheItem then ⟨entry.Value, now⟩ else cache.elements e,
    next := cache.next + 1,
    data := cache.data ++ [newCacheItem],
    lookupTable := GoMap.set cache.lookupTable entry.Key newCacheItem }

/-- The method `LRUCache.Add` at clock reading `now`. -/
def LRUCache.Add (cache : LRUCache) (entry : DBEntry) (now : Int) : Option LRUCache :=
  if cache.data.length ≥ cache.size then
    cache.evictFront.map (fun cache1 => cache1.pushBack entry now)
  else some (cache.pushBack entry now)

/-- The method `LRUCache.UpdateValue` at clock reading `now`. -/
def LRUCache.UpdateValue (cache : LRUCache) (entry : DBEntry) (now : Int) : LRUCache :=
  match GoMap.get cache.lookupTable entry.Key with
  | some element =>
    { cache with
      elements := fun e => if e = element then ⟨entry.Value, now⟩ else cache.elements e }
  | none => cache

/-- The method `LRUCache.Purge`: `data.Init()` and the deletion of every key. -/
def LRUCache.Purge (cache : LRUCache) : LRUCache :=
  { cache with data := [], lookupTable := [] }

/-- Repeated `Add` of a sequence of entries, all at clock reading `now`. -/
def LRUCache.addAll (cache : LRUCache) (now : Int) : List DBEntry → Option LRUCache
  | [] => some cache
  | entry :: rest => (cache.Add entry now).bind (fun cache1 => cache1.addAll now rest)

/-! ## Durable writer (`sqlite_utils.go`)

The table `KVStore` is the association list of its rows; the SQL statements
are represented by their effect on it and are taken to execute without error.
`g_localDB` is `none` while there is no connection. -/

/-- The type `SqliteJobType`. -/
inductive SqliteJobType where
  | SQLITE_WRITE
  | SQLITE_DELETE
deriving DecidableEq, Repr

/-- The struct `SqliteJob`. -/
structure SqliteJob where
  entry : DBEntry
  jobType : SqliteJobType
  createdAt : Int
deriving DecidableEq, Repr

/-- The struct `SqliteJobExecutor`: the job queue, front first, and the last
known wait time. -/
structure SqliteJobExecutor where
  jobQueue : List SqliteJob
  waitTime : Int
deriving DecidableEq, Repr

/-- The global state of a storage node. -/
structure NodeState where
  g_id : Int
  g_dbNetwork : DBNetwork
  g_dataCache : LRUCache
  g_localDB : Option (List (String × String))
  g_sqlJobExecutor : SqliteJobExecutor

/-- The function `Sqlite_NewJob` with `QueueJob`: the job goes to the back of
the queue. -/
def Sqlite_NewJob (s : NodeState) (entry : DBEntry) (jobType : SqliteJobType) (now : Int) :
    NodeState :=
  { s with
    g_sqlJobExecutor :=
      { s.g_sqlJobExecutor with
        jobQueue := s.g_sqlJobExecutor.jobQueue ++ [⟨entry, jobType, now⟩] } }

/-- The function `Sqlite_Write`. -/
def Sqlite_Write (s : NodeState) (entry : DBEntry) (now : Int) : Bool × NodeState :=
  match s.g_localDB with
  | none => (false, s)
  | some _ =>
    if entry.Key.length = 0 ∨ entry.Value.length = 0 then (false, s)
    else (true, Sqlite_NewJob s entry .SQLITE_WRITE now)

/-- The function `Sqlite_WriteInternal`: `REPLACE INTO KVStore`. The table is
the list of its rows in the order `SELECT * FROM KVStore` returns them (by
`rowid`); `REPLACE` removes the row that has the key, if there is one, and
inserts the new row with the next `rowid`, that is, at the end. -/
def Sqlite_WriteInternal (g_localDB : Option (List (String × String))) (entry : DBEntry) :
    Bool × Option (List (String × String)) :=
  match g_localDB with
  | none => (false, none)
  | some table =>
    if entry.Key.length = 0 ∨ entry.Value.length = 0 then (false, some table)
    else (true, some (GoMap.delete table entry.Key ++ [(entry.Key, entry.Value)]))

/-- The function `Sqlite_Read`: `SELECT * FROM KVStore WHERE key = ?`. -/
def Sqlite_Read (s : NodeState) (key : String) : Option DBEntry :=
  match s.g_localDB with
  | none => none
  | some table =>
    if key.length = 0 then none
    else
      match GoMap.get table key with
      | none => none
      | some value => some ⟨key, value⟩

/-- The function `Sqlite_ReadAll`: `SELECT * FROM KVStore`, the rows in the
order of the table; `Owner` keeps its zero value. -/
def Sqlite_ReadAll (s : NodeState) : Option DBChunk :=
  match s.g_localDB with
  | none => none
  | some table => some ⟨table.map (fun row => ⟨row.1, row.2⟩), 0⟩

/-- The function `Sqlite_DeleteInternal`: `DELETE FROM KVStore WHERE key = ?`. -/
def Sqlite_DeleteInternal (g_localDB : Option (List (String × String))) (key : String) :
    Bool × Option (List (String × String)) :=
  match g_localDB with
  | none => (false, none)
  | some table =>
    if key.length = 0 then (false, some table)
    else (true, some (GoMap.delete table key))

/-- One iteration of the loop of `SqliteJobExecutor.Run` at clock reading
`now`: the front job is taken off the queue and applied; on an empty queue the
executor waits. -/
def SqliteJobExecutor.RunJob (s : NodeState) (now : Int) : NodeState :=
  match s.g_sqlJobExecutor.jobQueue with
  | [] => s
  | job :: rest =>
    let executor : SqliteJobExecutor := { jobQueue := rest, waitTime := now - job.createdAt }
    match job.jobType with
    | .SQLITE_WRITE =>
      { s with
        g_sqlJobExecutor := executor,
        g_localDB := (Sqlite_WriteInternal s.g_localDB job.entry).2 }
    | .SQLITE_DELETE =>
      { s with
        g_sqlJobExecutor := executor,
        g_localDB := (Sqlite_DeleteInternal s.g_localDB job.entry.Key).2 }

/-- The loop of `SqliteJobExecutor.Run` until the queue is empty: one iteration
per queued job. -/
def SqliteJobExecutor.Run (s : NodeState) (now : Int) : NodeState :=
  Nat.iterate (fun s1 => SqliteJobExecutor.RunJob s1 now) s.g_sqlJobExecutor.jobQueue.length s

/-! ## Node replication engine (`datahandler.go`, `db_network_communicator.go`) -/

/-- The outcome of `http.Get` on a peer's `/internal/get`: a transport error, or
a response with its status code and the entry decoded from its body (`none`
when reading or decoding the body fails). -/
inductive PeerResponse where
  | transportError
  | response (statusCode : Nat) (body : Option DBEntry)
deriving DecidableEq, Repr

/-- The loop of `GetDataFromNode` over `g_dbNetwork.Nodes`: the first node with
the ID is asked; an error ends the search, a status other than 200 lets the
loop go on. -/
def getDataLoop (httpGet : String → String → PeerResponse) (key : String) (id : Nat) :
    List DBNode → Option DBEntry
  | [] => none
  | node :: rest =>
    if node.ID = toInt32 (id : Int) then
      match httpGet node.Addr key with
      | .transportError => none
      | .response statusCode body =>
        if statusCode = 200 then body else getDataLoop httpGet key id rest
    else getDataLoop httpGet key id rest

/-- The function `GetDataFromNode`. -/
def GetDataFromNode (g_dbNetwork : DBNetwork) (httpGet : String → String → PeerResponse)
    (key : String) (id : Nat) : Option DBEntry :=
  getDataLoop httpGet key id g_dbNetwork.Nodes

/-- The first loop of `DB_Read` and the loop of `DB_LocalWrite`: whether some
target equals `uint32(g_id)`. -/
def isLocalTarget (g_id : Int) : List Nat → Bool
  | [] => false
  | id :: rest => if id = toUint32 g_id then true else isLocalTarget g_id rest

/-- The second loop of `DB_Read`: the owners other than `uint32(g_id)` are asked
in order until one answers. -/
def readFromOwners (g_dbNetwork : DBNetwork) (httpGet : String → String → PeerResponse)
    (g_id : Int) (key : String) : List Nat → Option DBEntry
  | [] => none
  | ownerID :: rest =>
    if ownerID ≠ toUint32 g_id then
      match GetDataFromNode g_dbNetwork httpGet key ownerID with
      | some savedEntry => some savedEntry
      | none => readFromOwners g_dbNetwork httpGet g_id key rest
    else readFromOwners g_dbNetwork httpGet g_id key rest

/-- The function `DB_Read` at clock reading `now`, with the peers given by
`httpGet`. The result is the returned entry (`none` for nil) and the new state. -/
def DB_Read (s : NodeState) (httpGet : String → String → PeerResponse) (key : String)
    (now : Int) : Option (Option DBEntry × NodeState) :=
  match s.g_dataCache.Find key now with
  | ((value, true), cache1) => some (some value, { s with g_dataCache := cache1 })
  | ((_, false), cache1) =>
    let s1 : NodeState := { s with g_dataCache := cache1 }
    match GetTargetNodes s1.g_dbNetwork ⟨key, ""⟩ with
    | none => none
    | some ownerNodes =>
      match (if isLocalTarget s1.g_id ownerNodes then Sqlite_Read s1 key else none) with
      | some savedEntry =>
        (s1.g_dataCache.Add savedEntry now).map
          (fun cache2 => (some savedEntry, { s1 with g_dataCache := cache2 }))
      | none => some (readFromOwners s1.g_dbNetwork httpGet s1.g_id key ownerNodes, s1)

/-- The function `DB_LocalWrite` at clock reading `now`. -/
def DB_LocalWrite (s : NodeState) (data : DBEntry) (now : Int) : Option (Bool × NodeState) :=
  match GetTargetNodes s.g_dbNetwork data with
  | none => none
  | some targetNodes =>
    if ¬ isLocalTarget s.g_id targetNodes then some (false, s)
    else
      let found := s.g_dataCache.Find data.Key now
      let cache2 := if found.1.2 then found.2.UpdateValue data now else found.2
      some (true, (Sqlite_Write { s with g_dataCache := cache2 } data now).2)

/-- The function `DB_LocalRead` at clock reading `now`. -/
def DB_LocalRead (s : NodeState) (key : String) (now : Int) : Option DBEntry × NodeState :=
  match s.g_dataCache.Find key now with
  | ((value, true), cache1) => (some value, { s with g_dataCache := cache1 })
  | ((_, false), cache1) =>
    (Sqlite_Read { s with g_dataCache := cache1 } key, { s with g_dataCache := cache1 })

/-- The function `DB_GetLocalChunk`: a nil result of `Sqlite_ReadAll` is
dereferenced by `data.Owner = uint32(g_id)`. -/
def DB_GetLocalChunk (s : NodeState) : Option DBChunk :=
  (Sqlite_ReadAll s).map (fun data => { data with Owner := toUint32 s.g_id })

/-- The body of the inner loop of `DB_RehashData` for a target other than
self: the entry is appended to the chunk of `nodeID`, which is created with
`Owner: nodeID` when the table has none. -/
def addToChunk (nodeToEntriesTable : List (Nat × DBChunk)) (nodeID : Nat) (entry : DBEntry) :
    List (Nat × DBChunk) :=
  match GoMap.get nodeToEntriesTable nodeID with
  | some chunk =>
    GoMap.set nodeToEntriesTable nodeID { chunk with Entries := chunk.Entries ++ [entry] }
  | none => GoMap.set nodeToEntriesTable nodeID ⟨[] ++ [entry], nodeID⟩

/-- The inner loop of `DB_RehashData` over the targets of one entry; the state
is the table and the flag `shouldDeleteThisEntry`. The test is
`int(nodeID) != g_id`. -/
def bucketEntry (g_id : Int) (entry : DBEntry) :
    List Nat → List (Nat × DBChunk) × Bool → List (Nat × DBChunk) × Bool
  | [], acc => acc
  | nodeID :: rest, acc =>
    if (nodeID : Int) ≠ g_id then
      bucketEntry g_id entry rest (addToChunk acc.1 nodeID entry, acc.2)
    else bucketEntry g_id entry rest (acc.1, false)

/-- What the loops of `DB_RehashData` build: the table of per-target chunks and
the entries for which `go DB_LocalDelete(entry)` was started, in order. -/
structure RehashPlan where
  nodeToEntriesTable : List (Nat × DBChunk)
  deletes : List DBEntry
deriving DecidableEq, Repr

/-- The outer loop of `DB_RehashData` over the entries of the local chunk. -/
def rehashLoop (g_dbNetwork : DBNetwork) (g_id : Int) :
    List DBEntry → RehashPlan → Option RehashPlan
  | [], plan => some plan
  | entry :: rest, plan =>
    match GetTargetNodes g_dbNetwork entry with
    | none => none
    | some targetNodes =>
      let r := bucketEntry g_id entry targetNodes (plan.nodeToEntriesTable, true)
      rehashLoop g_dbNetwork g_id rest
        ⟨r.1, if r.2 then plan.deletes ++ [entry] else plan.deletes⟩

/-- The outcome of `DB_RehashData`: the calls `SendChunkToNodeWithID(chunk, id,
THREE_TRIES)` it starts, as pairs of `id` and chunk, the entries whose local
delete it starts, and the node state with the cache purged. -/
structure RehashResult where
  shipped : List (Nat × DBChunk)
  deletes : List DBEntry
  state : NodeState

/-- The function `DB_RehashData`. -/
def DB_RehashData (s : NodeState) : Option RehashResult :=
  match DB_GetLocalChunk s with
  | none => none
  | some localChunk =>
    (rehashLoop s.g_dbNetwork s.g_id localChunk.Entries ⟨[], []⟩).map
      (fun plan =>
        ⟨plan.nodeToEntriesTable, plan.deletes,
          { s with g_dataCache := s.g_dataCache.Purge }⟩)

/-- The table binds the ID `t` to a chunk with `Owner == t` that contains the
entry `e`. -/
def ChunkAt (table : List (Nat × DBChunk)) (t : Nat) (e : DBEntry) : Prop :=
  ∃ chunk, GoMap.get table t = some chunk ∧ chunk.Owner = t ∧ e ∈ chunk.Entries

/-- Every chunk of the table has the ID it is bound to as its `Owner`. -/
def OwnersMatch (table : List (Nat × DBChunk)) : Prop :=
  ∀ t chunk, GoMap.get table t = some chunk → chunk.Owner = t

/-- No target of the window is the node itself, with the test of
`DB_RehashData`: `int(nodeID) != g_id` for every target. -/
def noTargetIsSelf (g_id : Int) (targets : List Nat) : Bool :=
  targets.all (fun nodeID => decide ((nodeID : Int) ≠ g_id))

/-- The entry has a placement window under the view and no target of it is the
node itself: the condition under which `DB_RehashData` starts its delete. -/
def leavesNode (g_dbNetwork : DBNetwork) (g_id : Int) (entry : DBEntry) : Bool :=
  match GetTargetNodes g_dbNetwork entry with
  | some targets => noTargetIsSelf g_id targets
  | none => false

/-- The switch of `SqliteJobExecutor.Run` on one job, as a function of the
table. -/
def jobEffect (g_localDB : Option (List (String × String))) (job : SqliteJob) :
    Option (List (String × String)) :=
  match job.jobType with
  | .SQLITE_WRITE => (Sqlite_WriteInternal g_localDB job.entry).2
  | .SQLITE_DELETE => (Sqlite_DeleteInternal g_localDB job.entry.Key).2

/-- The method `DBNode.IsSameAs`. -/
def DBNode.IsSameAs (node other : DBNode) : Bool :=
  decide (node.Addr = other.Addr) && decide (node.ID = other.ID)

/-- The loop of `DBNetwork.NodeExists`. -/
def nodeExistsLoop (node : DBNode) : List DBNode → Bool
  | [] => false
  | currNode :: rest => if currNode.IsSameAs node then true else nodeExistsLoop node rest

/-- The method `DBNetwork.NodeExists`. -/
def DBNetwork.NodeExists (network : DBNetwork) (node : DBNode) : Bool :=
  nodeExistsLoop node network.Nodes

/-- The loop of `DiffNetworkAgainstLocal` over the nodes of the downloaded
network. -/
def diffLoop (g_dbNetwork : DBNetwork) : List DBNode → Bool
  | [] => false
  | node :: rest => if ¬ g_dbNetwork.NodeExists node then true else diffLoop g_dbNetwork rest

/-- The function `DiffNetworkAgainstLocal`: the local view `g_dbNetwork`
against the downloaded `network`. -/
def DiffNetworkAgainstLocal (g_dbNetwork network : DBNetwork) : Bool :=
  if network.NumNodes ≠ g_dbNetwork.NumNodes ∨
      network.ReplicationFactor ≠ g_dbNetwork.ReplicationFactor then true
  else diffLoop g_dbNetwork network.Nodes

/-- The first loop of `SyncSelfID`: the `Addr` of the first node of the local
view with `node.ID == int32(g_id)`, the empty string when there is none. -/
def findOwnAddr (g_id : Int) : List DBNode → String
  | [] => ""
  | node :: rest => if node.ID = toInt32 g_id then node.Addr else findOwnAddr g_id rest

/-- The second loop of `SyncSelfID`: `remaining` iterations from index `i`;
the result is the new value of `g_id`. Indexing beyond the list panics. -/
def syncLoop (nodes : List DBNode) (addr : String) (g_id : Int) : Nat → Nat → Option Int
  | 0, _ => some g_id
  | remaining + 1, i =>
    match nodes[i]? with
    | none => none
    | some n => if n.Addr = addr then some n.ID else syncLoop nodes addr g_id remaining (i + 1)

/-- The function `SyncSelfID`. -/
def SyncSelfID (s : NodeState) (updatedNetwork : DBNetwork) : Option NodeState :=
  let addr := findOwnAddr s.g_id s.g_dbNetwork.Nodes
  (syncLoop updatedNetwork.Nodes addr s.g_id updatedNetwork.NumNodes 0).map
    (fun id => { s with g_id := id })

/-- The network with the `State` of every node replaced through `f`. -/
def DBNetwork.withStates (network : DBNetwork) (f : DBNode → DBNodeState) : DBNetwork :=
  { network with Nodes := network.Nodes.map (fun n => { n with State := f n }) }

/-- The 64-bit FNV-1a hash as the specification words it: from the state, for
each byte in order, XOR with the byte, then multiply by the prime
0x100000001b3 modulo 2^64. -/
def fnv1a64 : Nat → List UInt8 → Nat
  | state, [] => state
  | state, b :: rest => fnv1a64 (((state ^^^ b.toNat) * 0x100000001b3) % 2 ^ 64) rest

/-- The 64-bit FNV-1 hash: from the state, for each byte in order, multiply by
the prime 0x100000001b3 modulo 2^64, then XOR with the byte. -/
def fnv1_64 : Nat → List UInt8 → Nat
  | state, [] => state
  | state, b :: rest => fnv1_64 (((state * 0x100000001b3) % 2 ^ 64) ^^^ b.toNat) rest

/-! ## Adding a node (`DBController/main.go`, `nodeutils.go`) -/

/-- The constant `NEWNODE_HEALTHCHECK_TRIES`. -/
def NEWNODE_HEALTHCHECK_TRIES : Nat := 3

/-- The function `HandleAddNode` on a POST with parameter `nodeurl`, with the
outcome of `DeployNode` as `spawned`: the node handed to `go
HealthCheckAndAdd(node)`, if any. Its ID is `int32(g_network.NumNodes)` as read
by the handler. -/
def HandleAddNode (g_network : DBNetwork) (nodeURL : String) (spawned : Bool) : Option DBNode :=
  if nodeURL.length = 0 then none
  else if spawned then
    some { Addr := nodeURL, ID := toInt32 (g_network.NumNodes : Int), State := .NODESTATE_STARTING }
  else none

/-- The probe loop of `HealthCheckAndAdd`: `probe tries` is whether the probe
made after `tries` failures answers 200; the result is whether the node passed
before `tries` reached `NEWNODE_HEALTHCHECK_TRIES`. -/
def healthCheckLoop (probe : Nat → Bool) : Nat → Nat → Bool
  | 0, _ => false
  | remaining + 1, tries =>
    if probe tries then true else healthCheckLoop probe remaining (tries + 1)

/-- The function `HealthCheckAndAdd`; `g_network` is the network at the moment
the lock is taken for the append. `UpdateStateAndReturn` has set the state of
the local copy of the node to READY. -/
def HealthCheckAndAdd (g_network : DBNetwork) (node : DBNode) (probe : Nat → Bool) : DBNetwork :=
  if healthCheckLoop probe NEWNODE_HEALTHCHECK_TRIES 0 then
    appendNode g_network { node with State := .NODESTATE_READY }
  else g_network

/-! ## Catch-up (`DBNode/main.go`) -/

/-- Conversion of an integer to `int` (64-bit two's complement). -/
def toInt64 (x : Int) : Int := (x + 2 ^ 63) % 2 ^ 64 - 2 ^ 63

/-- The function `Mod`; `d % m` is Go's truncated remainder. -/
def Mod (d m : Int) : Int :=
  let res := Int.tmod d m
  if (res < 0 ∧ m > 0) ∨ (res > 0 ∧ m < 0) then res + m else res

/-- The loop of `HandleCatchupCmd` that fills `nodesToAsk`: `remaining`
iterations from `i`, each appending `(i+g_id+1) % int(NumNodes)` and
`Mod(g_id-1-i, int(NumNodes))`. The remainder by zero panics. -/
def nodesToAskLoop (g_id : Int) (numNodes : Int) : Nat → Nat → Option (List Int)
  | 0, _ => some []
  | remaining + 1, i =>
    if numNodes = 0 then none
    else
      (nodesToAskLoop g_id numNodes remaining (i + 1)).map
        (fun rest =>
          Int.tmod (toInt64 ((i : Int) + g_id + 1)) numNodes ::
            Mod (toInt64 (g_id - 1 - (i : Int))) numNodes :: rest)

/-- The list `nodesToAsk` of `HandleCatchupCmd`, with
`lookAheadWindow := g_dbNetwork.ReplicationFactor - 1` in `uint32`. -/
def catchupNodesToAsk (g_dbNetwork : DBNetwork) (g_id : Int) : Option (List Int) :=
  nodesToAskLoop g_id (g_dbNetwork.NumNodes : Int)
    (toUint32 ((g_dbNetwork.ReplicationFactor : Int) - 1)) 0

/-- The function `HandleCatchupCmd` up to the requests it makes, with the
result of `DownloadNetworkInfo()` as `updatedNetwork`: the new state and the
IDs passed to `GetChunkFromNode`, in order. -/
def HandleCatchupCmd (s : NodeState) (updatedNetwork : DBNetwork) :
    Option (NodeState × List Int) :=
  (if DiffNetworkAgainstLocal s.g_dbNetwork updatedNetwork then
      (SyncSelfID s updatedNetwork).map (fun s1 => { s1 with g_dbNetwork := updatedNetwork })
    else some s).bind
    (fun s1 => (catchupNodesToAsk s1.g_dbNetwork s1.g_id).map (fun nodesToAsk => (s1, nodesToAsk)))

/-! ## Health monitor (`DBController/main.go`, `nodeutils.go`) -/

/-- The method `DBNode.UpdateState`, with the outcome of the `http.Get` on
`/internal/healthcheck` as `probe`: `none` for a transport error, otherwise the
status code. The result is the node with its new state and whether
`go node.SpawnReplacement()` was started. -/
def DBNode.UpdateState (node : DBNode) (probe : Option Nat) : DBNode × Bool :=
  if probe ≠ some 200 then ({ node with State := .NODESTATE_UNREACHABLE }, true)
  else ({ node with State := .NODESTATE_READY }, false)

/-- The inner loop of `MonitorNodes` from index `i` on: a DEAD node is skipped,
every other node is probed through `UpdateState`. The result is the nodes after
the cycle and the indices for which a replacement watcher was started. -/
def monitorLoop (probe : String → Option Nat) : List DBNode → Nat → List DBNode × List Nat
  | [], _ => ([], [])
  | node :: rest, i =>
    let r := monitorLoop probe rest (i + 1)
    if node.State = .NODESTATE_DEAD then (node :: r.1, r.2)
    else
      let u := node.UpdateState (probe node.Addr)
      (u.1 :: r.1, if u.2 then i :: r.2 else r.2)

/-- One cycle of `MonitorNodes` under the membership lock, with the probe
outcome of each address given by `probe`: the network after the cycle and the
indices of the nodes for which `go node.SpawnReplacement()` was started. -/
def MonitorNodes (g_network : DBNetwork) (probe : String → Option Nat) : DBNetwork × List Nat :=
  ({ g_network with Nodes := (monitorLoop probe g_network.Nodes 0).1 },
    (monitorLoop probe g_network.Nodes 0).2)

/-! ## Example configuration

Three nodes with replication factor 2; the key "apple" has start index 1 under
`DBEntry.Hash`, so its window is `[1, 2]`. -/

/-- A three-node network with replication factor 2. -/
def exampleNetwork : DBNetwork :=
  ⟨[⟨"http://n0", 0, .NODESTATE_READY⟩, ⟨"http://n1", 1, .NODESTATE_READY⟩,
    ⟨"http://n2", 2, .NODESTATE_READY⟩], 3, 2⟩

/-- Node 1: it caches and stores "apple" with an older value and has a delete
of another key queued. -/
def exampleOwner : NodeState :=
  { g_id := 1,
    g_dbNetwork := exampleNetwork,
    g_dataCache := (MakeLRUCache 500).pushBack ⟨"apple", "green"⟩ 0,
    g_localDB := some [("apple", "green"), ("pear", "yellow")],
    g_sqlJobExecutor := ⟨[⟨⟨"pear", ""⟩, .SQLITE_DELETE, 5⟩], 0⟩ }

/-- Node 0: empty cache; it stores "kiwi", which it owns, and a stale copy of
"apple", which it does not own. -/
def exampleReader : NodeState :=
  { g_id := 0,
    g_dbNetwork := exampleNetwork,
    g_dataCache := MakeLRUCache 500,
    g_localDB := some [("kiwi", "brown"), ("apple", "stale")],
    g_sqlJobExecutor := ⟨[], 0⟩ }

/-- Peers in which node 1 is unreachable and node 2 answers 200 with the entry
for "apple" and 404 otherwise. -/
def examplePeers (addr key : String) : PeerResponse :=
  if addr = "http://n1" then .transportError
  else if addr = "http://n2" ∧ key = "apple" then .response 200 (some ⟨"apple", "red"⟩)
  else .response 404 none

/-! ## Placement: proofs -/

theorem targetLoop_length (n : Nat) : ∀ (count nodeID : Nat),
    (targetLoop n count nodeID).length = count
  | 0, _ => rfl
  | count + 1, nodeID => by simp [targetLoop, targetLoop_length n count]

theorem targetLoop_getElem? (n : Nat) (hn : n < 2 ^ 32) : ∀ (count start i : Nat),
    start < n → i < count → (targetLoop n count start)[i]? = some ((start + i) % n)
  | 0, _, _, _, hi => absurd hi (Nat.not_lt_zero _)
  | count + 1, start, 0, hs, _ => by
    simp [targetLoop, Nat.mod_eq_of_lt hs]
  | count + 1, start, i + 1, hs, hi => by
    have h1 : (start + 1) % 2 ^ 32 = start + 1 := Nat.mod_eq_of_lt (by omega)
    have hpos : 0 < n := by omega
    have h2 : (start + 1) % n < n := Nat.mod_lt _ hpos
    simp only [targetLoop, List.getElem?_cons_succ, h1]
    rw [targetLoop_getElem? n hn count ((start + 1) % n) i h2 (by omega)]
    congr 1
    rw [Nat.mod_add_mod]
    congr 1
    omega

/-- The window of `GetTargetNodes` in closed form. -/
theorem GetTargetNodes_eq (net : DBNetwork) (entry : DBEntry)
    (hN : 1 ≤ net.NumNodes) (h32 : net.NumNodes < 2 ^ 32) :
    GetTargetNodes net entry =
      some ((List.range net.ReplicationFactor).map
        (fun i => (entry.Hash % net.NumNodes + i) % net.NumNodes)) := by
  have hne : net.NumNodes ≠ 0 := by omega
  have hlt : entry.Hash % net.NumNodes < net.NumNodes := Nat.mod_lt _ (by omega)
  have hm : entry.Hash % net.NumNodes % 2 ^ 32 = entry.Hash % net.NumNodes :=
    Nat.mod_eq_of_lt (by omega)
  simp only [GetTargetNodes, hne, if_false, hm, Option.some.injEq]
  apply List.ext_getElem?
  intro i
  by_cases hi : i < net.ReplicationFactor
  · rw [targetLoop_getElem? _ h32 _ _ _ hlt hi]
    simp [List.getElem?_range hi]
  · rw [List.getElem?_eq_none (by simp [targetLoop_length]; omega),
      List.getElem?_eq_none (by simp; omega)]

theorem mod_window (s i n : Nat) (hs : s < n) (hi : i < n) :
    (s + i) % n = if s + i < n then s + i else s + i - n := by
  split
  · exact Nat.mod_eq_of_lt (by assumption)
  · rw [Nat.mod_eq_sub_mod (by omega)]
    exact Nat.mod_eq_of_lt (by omega)

/-- C1: for `NumNodes = N >= 1` (a `uint32`) and any `ReplicationFactor = r`,
`GetTargetNodes` returns a list of exactly `r` IDs whose `i`-th element is
`((Hash(key) mod N) + i) mod N`; the `uint32` arithmetic of the loop never
wraps around. -/
theorem GetTargetNodes_window (net : DBNetwork) (entry : DBEntry)
    (hN : 1 ≤ net.NumNodes) (h32 : net.NumNodes < 2 ^ 32) :
    ∃ targets, GetTargetNodes net entry = some targets ∧
      targets.length = net.ReplicationFactor ∧
      ∀ i, i < net.ReplicationFactor →
        targets[i]? = some ((entry.Hash % net.NumNodes + i) % net.NumNodes) := by
  refine ⟨_, GetTargetNodes_eq net entry hN h32, by simp, ?_⟩
  intro i hi
  simp [List.getElem?_range hi]

theorem GetTargetNodes_window_witness :
    GetTargetNodes ⟨[], 3, 5⟩ ⟨"apple", "red"⟩ = some [1, 2, 0, 1, 2] ∧
    ∃ targets, GetTargetNodes ⟨[], 3, 5⟩ ⟨"apple", "red"⟩ = some targets ∧
      targets.length = 5 ∧
      ∀ i, i < 5 → targets[i]? = some (((DBEntry.mk "apple" "red").Hash % 3 + i) % 3) :=
  ⟨by decide, GetTargetNodes_window ⟨[], 3, 5⟩ ⟨"apple", "red"⟩ (by decide) (by decide)⟩

/-- C2: when `1 <= RF <= NumNodes`, the window of `GetTargetNodes` consists of
`RF` pairwise distinct IDs, each smaller than `NumNodes`, and each ID after the
first is the previous ID plus one modulo `NumNodes`. -/
theorem GetTargetNodes_contiguous (net : DBNetwork) (entry : DBEntry)
    (hRF : 1 ≤ net.ReplicationFactor) (hle : net.ReplicationFactor ≤ net.NumNodes)
    (h32 : net.NumNodes < 2 ^ 32) :
    ∃ targets, GetTargetNodes net entry = some targets ∧
      targets.length = net.ReplicationFactor ∧
      targets.Nodup ∧
      (∀ t ∈ targets, t < net.NumNodes) ∧
      ∀ i p, targets[i]? = some p → i + 1 < net.ReplicationFactor →
        targets[i + 1]? = some ((p + 1) % net.NumNodes) := by
  have hN : 1 ≤ net.NumNodes := by omega
  have hs : entry.Hash % net.NumNodes < net.NumNodes := Nat.mod_lt _ (by omega)
  refine ⟨_, GetTargetNodes_eq net entry hN h32, by simp, ?_, ?_, ?_⟩
  · apply List.Nodup.map_on _ (List.nodup_range _)
    intro a ha b hb hab
    rw [List.mem_range] at ha hb
    rw [mod_window _ _ _ hs (by omega), mod_window _ _ _ hs (by omega)] at hab
    split at hab <;> split at hab <;> omega
  · intro t ht
    rw [List.mem_map] at ht
    obtain ⟨i, _, rfl⟩ := ht
    exact Nat.mod_lt _ (by omega)
  · intro i p hp hi
    have hi0 : i < net.ReplicationFactor := by omega
    simp only [List.getElem?_map, List.getElem?_range hi0, List.getElem?_range hi,
      Option.map_some', Option.some.injEq] at hp ⊢
    subst hp
    simp only [Nat.mod_add_mod, Nat.add_assoc]

theorem GetTargetNodes_contiguous_witness :
    GetTargetNodes ⟨[], 3, 3⟩ ⟨"apple", "red"⟩ = some [1, 2, 0] ∧
    ∃ targets, GetTargetNodes ⟨[], 3, 3⟩ ⟨"apple", "red"⟩ = some targets ∧
      targets.length = 3 ∧
      targets.Nodup ∧
      (∀ t ∈ targets, t < 3) ∧
      ∀ i p, targets[i]? = some p → i + 1 < 3 → targets[i + 1]? = some ((p + 1) % 3) :=
  ⟨by decide,
    GetTargetNodes_contiguous ⟨[], 3, 3⟩ ⟨"apple", "red"⟩ (by decide) (by decide) (by decide)⟩

/-! ## Controller membership: proofs -/

theorem swapAndDecrement_cons (a : DBNode) (l : List DBNode) (n : Nat) :
    swapAndDecrement (a :: l) (n + 1) = (swapAndDecrement l n).map (fun r => a :: r) := by
  unfold swapAndDecrement
  simp only [List.getElem?_cons_succ]
  cases l[n]? <;> cases l[n + 1]? <;> simp [List.set]

theorem swapAndDecrement_append (pre : List DBNode) (x y : DBNode) (rest : List DBNode) :
    swapAndDecrement (pre ++ x :: y :: rest) pre.length =
      some (pre ++ decrementID y :: x :: rest) := by
  induction pre with
  | nil => simp [swapAndDecrement, List.set]
  | cons a pre ih =>
    simp only [List.cons_append, List.length_cons, swapAndDecrement_cons, ih, Option.map_some']

theorem compactLoop_append (rest : List DBNode) : ∀ (pre : List DBNode) (x : DBNode),
    compactLoop rest.length pre.length (pre ++ x :: rest) =
      some (pre ++ rest.map decrementID ++ [x]) := by
  induction rest with
  | nil => intro pre x; simp [compactLoop]
  | cons y rest ih =>
    intro pre x
    simp only [List.length_cons, compactLoop, swapAndDecrement_append, Option.some_bind]
    have h := ih (pre ++ [decrementID y]) x
    simp only [List.length_append, List.length_singleton, List.append_assoc,
      List.singleton_append] at h
    simp only [h, List.map_cons, List.append_assoc, List.cons_append, List.singleton_append]

theorem findDeleteIndex_found (nodes : List DBNode) (id : Int) (j : Nat) (n : DBNode)
    (hj : nodes[j]? = some n) (hid : n.ID = id)
    (hbefore : ∀ k m, k < j → nodes[k]? = some m → m.ID ≠ id) :
    ∀ (remaining i : Nat), i ≤ j → j < i + remaining →
      findDeleteIndex nodes id remaining i = some (j : Int) := by
  intro remaining
  induction remaining with
  | zero => intro i h1 h2; omega
  | succ r ih =>
    intro i h1 h2
    by_cases hij : i = j
    · subst hij
      simp [findDeleteIndex, hj, hid]
    · have hlt : i < j := by omega
      have hjl : j < nodes.length := by
        by_contra hc
        rw [List.getElem?_eq_none (by omega)] at hj
        exact absurd hj (by simp)
      have hil : i < nodes.length := by omega
      have hne := hbefore i nodes[i] hlt (List.getElem?_eq_getElem hil)
      simp only [findDeleteIndex, List.getElem?_eq_getElem hil, hne, if_false]
      exact ih (i + 1) (by omega) (by omega)

theorem toUint32_pred (m : Nat) (h1 : 1 ≤ m) (h2 : m ≤ 2 ^ 32) :
    toUint32 ((m : Int) - 1) = m - 1 := by
  unfold toUint32
  omega

theorem toInt32_pred (i : Nat) (h : i < 2 ^ 31) : toInt32 (((i + 1 : Nat) : Int) - 1) = i := by
  unfold toInt32
  omega

theorem I1_getElem? (net : DBNetwork) (hI1 : net.I1) (k : Nat) (m : DBNode)
    (hk : net.Nodes[k]? = some m) : m.ID = (k : Int) := by
  have hkl : k < net.Nodes.length := by
    by_contra hc
    rw [List.getElem?_eq_none (by omega)] at hk
    exact absurd hk (by simp)
  have h := hI1 k hkl
  rw [List.getElem?_eq_getElem hkl] at hk
  simp only [List.get_eq_getElem] at h
  rw [← Option.some.inj hk]
  exact h

/-- The result of `RemoveNode` on a list of at least two nodes that satisfies
I1, when the node passed in has the ID `j` of a list index. -/
theorem RemoveNode_eq (net : DBNetwork) (node : DBNode) (j : Nat)
    (hI1 : net.I1) (hNum : net.NumNodes = net.Nodes.length)
    (hM : 2 ≤ net.Nodes.length) (hT : net.Nodes.length ≤ 2 ^ 31)
    (hid : node.ID = (j : Int)) (hj : j < net.Nodes.length) :
    net.RemoveNode node = some
      { Nodes := net.Nodes.take j ++ (net.Nodes.drop (j + 1)).map decrementID,
        NumNodes := net.Nodes.length - 1,
        ReplicationFactor := net.ReplicationFactor } := by
  have hne : net.Nodes.length ≠ 1 := by omega
  have hfind : findDeleteIndex net.Nodes node.ID net.NumNodes 0 = some (j : Int) := by
    apply findDeleteIndex_found net.Nodes node.ID j (net.Nodes[j]) (List.getElem?_eq_getElem hj)
    · rw [hid]; exact I1_getElem? net hI1 j _ (List.getElem?_eq_getElem hj)
    · intro k m hk hkm
      rw [I1_getElem? net hI1 k m hkm, hid]
      omega
    · omega
    · omega
  have hsplit : net.Nodes.take j ++ net.Nodes[j] :: net.Nodes.drop (j + 1) = net.Nodes := by
    rw [← List.drop_eq_getElem_cons hj, List.take_append_drop]
  have hcompact : compactLoop (net.Nodes.length - 1 - j) j net.Nodes =
      some (net.Nodes.take j ++ (net.Nodes.drop (j + 1)).map decrementID ++ [net.Nodes[j]]) := by
    have h := compactLoop_append (net.Nodes.drop (j + 1)) (net.Nodes.take j) net.Nodes[j]
    rw [hsplit, List.length_drop, List.length_take, Nat.min_eq_left (by omega)] at h
    rw [← h]
    congr 1
    omega
  have hlen : (net.Nodes.take j ++ (net.Nodes.drop (j + 1)).map decrementID).length =
      net.Nodes.length - 1 := by
    simp only [List.length_append, List.length_take, List.length_map, List.length_drop]
    omega
  have hnum : toUint32 ((net.NumNodes : Int) - 1) = net.Nodes.length - 1 := by
    rw [hNum]
    exact toUint32_pred _ (by omega) (by omega)
  unfold DBNetwork.RemoveNode
  simp only [hne, if_false, hfind, Int.toNat_ofNat, hcompact, hnum]
  have hneg : ¬ ((j : Int) < 0) := by omega
  simp only [hneg, if_false]
  have htake : List.take
      ((net.Nodes.take j ++ (net.Nodes.drop (j + 1)).map decrementID ++ [net.Nodes[j]]).length - 1)
      (net.Nodes.take j ++ (net.Nodes.drop (j + 1)).map decrementID ++ [net.Nodes[j]]) =
      net.Nodes.take j ++ (net.Nodes.drop (j + 1)).map decrementID := by
    apply List.take_left'
    simp only [List.length_append, List.length_singleton]
    omega
  rw [htake]
  simp only [DBNetwork.OnUpdated, hlen, le_refl, if_true, Option.some_bind]

/-- The result of `RemoveNode` on a list of exactly one node. -/
theorem RemoveNode_single (net : DBNetwork) (node : DBNode)
    (hNum : net.NumNodes = net.Nodes.length) (hM : net.Nodes.length = 1) :
    net.RemoveNode node = some
      { Nodes := [], NumNodes := 0, ReplicationFactor := net.ReplicationFactor } := by
  have hnum : toUint32 ((net.NumNodes : Int) - 1) = 0 := by
    rw [hNum, hM]; rfl
  unfold DBNetwork.RemoveNode
  simp [hM, hnum, DBNetwork.OnUpdated]

theorem mem_I1_index (net : DBNetwork) (hI1 : net.I1) (node : DBNode)
    (hmem : node ∈ net.Nodes) : ∃ j : Nat, j < net.Nodes.length ∧ node.ID = (j : Int) := by
  obtain ⟨j, hj, hjn⟩ := List.getElem_of_mem hmem
  exact ⟨j, hj, I1_getElem? net hI1 j node (by rw [List.getElem?_eq_getElem hj, hjn])⟩

theorem compacted_getElem?_lt (nodes : List DBNode) (j i : Nat) (hi : i < j)
    (hj : j < nodes.length) :
    (nodes.take j ++ (nodes.drop (j + 1)).map decrementID)[i]? = nodes[i]? := by
  rw [List.getElem?_append_left (by rw [List.length_take]; omega), List.getElem?_take_of_lt hi]

theorem compacted_getElem?_ge (nodes : List DBNode) (j i : Nat) (hi : j ≤ i)
    (hj : j < nodes.length) :
    (nodes.take j ++ (nodes.drop (j + 1)).map decrementID)[i]? =
      (nodes[i + 1]?).map decrementID := by
  have hl : (nodes.take j).length = j := by rw [List.length_take]; omega
  rw [List.getElem?_append_right (by omega), hl, List.getElem?_map, List.getElem?_drop]
  congr 2
  omega

theorem I1_of_getElem? (net : DBNetwork)
    (h : ∀ (k : Nat) (m : DBNode), net.Nodes[k]? = some m → m.ID = (k : Int)) : net.I1 := by
  intro i hi
  exact h i _ (by rw [List.getElem?_eq_getElem hi]; rfl)

theorem decrementID_of_ID (n : DBNode) (i : Nat) (hn : n.ID = ((i + 1 : Nat) : Int))
    (hi : i < 2 ^ 31) : decrementID n = { Addr := n.Addr, ID := n.ID - 1, State := n.State } := by
  have h := toInt32_pred i hi
  unfold decrementID
  rw [hn, h]
  congr 1
  omega

/-- C3: on a controller network of size `M >= 1` with `Nodes[i].ID == i` and
`NumNodes == len(Nodes) == M` (the IDs being `int32` values, `M <= 2^31`),
`RemoveNode` of any node of the list returns, and afterwards the list has size
`M-1`, `NumNodes == M-1` and every surviving node satisfies `Nodes[i].ID == i`. -/
theorem RemoveNode_compaction (net : DBNetwork) (node : DBNode)
    (hI1 : net.I1) (hNum : net.NumNodes = net.Nodes.length)
    (hM : 1 ≤ net.Nodes.length) (hT : net.Nodes.length ≤ 2 ^ 31)
    (hmem : node ∈ net.Nodes) :
    ∃ net1, net.RemoveNode node = some net1 ∧
      net1.Nodes.length = net.Nodes.length - 1 ∧
      net1.NumNodes = net.Nodes.length - 1 ∧
      net1.I1 := by
  by_cases h1 : net.Nodes.length = 1
  · refine ⟨_, RemoveNode_single net node hNum h1, ?_, ?_, ?_⟩
    · simp [h1]
    · simp [h1]
    · intro i hi
      simp at hi
  · obtain ⟨j, hj, hid⟩ := mem_I1_index net hI1 node hmem
    refine ⟨_, RemoveNode_eq net node j hI1 hNum (by omega) hT hid hj, ?_, rfl, ?_⟩
    · simp only [List.length_append, List.length_take, List.length_map, List.length_drop]
      omega
    · apply I1_of_getElem?
      intro k m hk
      by_cases hkj : k < j
      · rw [compacted_getElem?_lt _ _ _ hkj hj] at hk
        exact I1_getElem? net hI1 k m hk
      · rw [compacted_getElem?_ge _ _ _ (by omega) hj] at hk
        cases hn : net.Nodes[k + 1]? with
        | none => rw [hn] at hk; exact absurd hk (by simp)
        | some n =>
          rw [hn] at hk
          have hk1 : k + 1 < net.Nodes.length := by
            by_contra hc
            rw [List.getElem?_eq_none (by omega)] at hn
            exact absurd hn (by simp)
          have hnid := I1_getElem? net hI1 (k + 1) n hn
          have hdec := decrementID_of_ID n k hnid (by omega)
          simp only [Option.map_some', Option.some.injEq] at hk
          rw [← hk, hdec, hnid]
          simp

theorem RemoveNode_compaction_witness :
    ∃ net1, DBNetwork.RemoveNode
        ⟨[⟨"a", 0, .NODESTATE_READY⟩, ⟨"b", 1, .NODESTATE_READY⟩, ⟨"c", 2, .NODESTATE_READY⟩],
          3, 2⟩ ⟨"a", 0, .NODESTATE_READY⟩ = some net1 ∧
      net1.Nodes.length = 3 - 1 ∧ net1.NumNodes = 3 - 1 ∧ net1.I1 :=
  RemoveNode_compaction
    ⟨[⟨"a", 0, .NODESTATE_READY⟩, ⟨"b", 1, .NODESTATE_READY⟩, ⟨"c", 2, .NODESTATE_READY⟩], 3, 2⟩
    ⟨"a", 0, .NODESTATE_READY⟩ (by decide) rfl (by decide) (by decide) (by decide)

/-- C4: on a network of `M >= 2` nodes with `Nodes[i].ID == i` and
`NumNodes == M`, `RemoveNode` of a node with ID `j < M` returns a network of
`M-1` nodes in which the node at every index `i < j` is unchanged, the node at
every index `j <= i < M-1` has the `Addr` and `State` of the old node at index
`i+1` and that node's ID minus one, and `ReplicationFactor` is unchanged. -/
theorem RemoveNode_frame (net : DBNetwork) (node : DBNode) (j : Nat)
    (hI1 : net.I1) (hNum : net.NumNodes = net.Nodes.length)
    (hM : 2 ≤ net.Nodes.length) (hT : net.Nodes.length ≤ 2 ^ 31)
    (hid : node.ID = (j : Int)) (hj : j < net.Nodes.length) :
    ∃ net1, net.RemoveNode node = some net1 ∧
      net1.Nodes.length = net.Nodes.length - 1 ∧
      net1.NumNodes = net.NumNodes - 1 ∧
      net1.ReplicationFactor = net.ReplicationFactor ∧
      (∀ i, i < j → net1.Nodes[i]? = net.Nodes[i]?) ∧
      (∀ i, j ≤ i → i < net.Nodes.length - 1 →
        ∃ n, net.Nodes[i + 1]? = some n ∧
          net1.Nodes[i]? = some { Addr := n.Addr, ID := n.ID - 1, State := n.State }) := by
  refine ⟨_, RemoveNode_eq net node j hI1 hNum hM hT hid hj, ?_, ?_, rfl, ?_, ?_⟩
  · simp only [List.length_append, List.length_take, List.length_map, List.length_drop]
    omega
  · simp only [hNum]
  · intro i hi
    exact compacted_getElem?_lt _ _ _ hi hj
  · intro i hji hi
    have hi1 : i + 1 < net.Nodes.length := by omega
    refine ⟨net.Nodes[i + 1], List.getElem?_eq_getElem hi1, ?_⟩
    have hnid := I1_getElem? net hI1 (i + 1) _ (List.getElem?_eq_getElem hi1)
    rw [compacted_getElem?_ge _ _ _ hji hj, List.getElem?_eq_getElem hi1, Option.map_some',
      decrementID_of_ID _ i hnid (by omega)]

theorem RemoveNode_frame_witness :
    DBNetwork.RemoveNode
        ⟨[⟨"n0", 0, .NODESTATE_READY⟩, ⟨"n1", 1, .NODESTATE_UNREACHABLE⟩,
          ⟨"n2", 2, .NODESTATE_STARTING⟩], 3, 2⟩ ⟨"n1", 1, .NODESTATE_UNREACHABLE⟩ =
      some ⟨[⟨"n0", 0, .NODESTATE_READY⟩, ⟨"n2", 1, .NODESTATE_STARTING⟩], 2, 2⟩ ∧
    ∃ net1, DBNetwork.RemoveNode
        ⟨[⟨"n0", 0, .NODESTATE_READY⟩, ⟨"n1", 1, .NODESTATE_UNREACHABLE⟩,
          ⟨"n2", 2, .NODESTATE_STARTING⟩], 3, 2⟩ ⟨"n1", 1, .NODESTATE_UNREACHABLE⟩ = some net1 ∧
      net1.Nodes.length = 3 - 1 ∧
      net1.NumNodes = 3 - 1 ∧
      net1.ReplicationFactor = 2 ∧
      (∀ i, i < 1 → net1.Nodes[i]? =
        [(⟨"n0", 0, .NODESTATE_READY⟩ : DBNode), ⟨"n1", 1, .NODESTATE_UNREACHABLE⟩,
          ⟨"n2", 2, .NODESTATE_STARTING⟩][i]?) ∧
      (∀ i, 1 ≤ i → i < 3 - 1 →
        ∃ n, [(⟨"n0", 0, .NODESTATE_READY⟩ : DBNode), ⟨"n1", 1, .NODESTATE_UNREACHABLE⟩,
          ⟨"n2", 2, .NODESTATE_STARTING⟩][i + 1]? = some n ∧
          net1.Nodes[i]? = some { Addr := n.Addr, ID := n.ID - 1, State := n.State }) :=
  ⟨by decide,
    RemoveNode_frame
      ⟨[⟨"n0", 0, .NODESTATE_READY⟩, ⟨"n1", 1, .NODESTATE_UNREACHABLE⟩,
        ⟨"n2", 2, .NODESTATE_STARTING⟩], 3, 2⟩ ⟨"n1", 1, .NODESTATE_UNREACHABLE⟩ 1
      (by decide) rfl (by decide) (by decide) rfl (by decide)⟩

/-- The append of `HealthCheckAndAdd` keeps `1 <= RF <= NumNodes` (below the
`uint32` limit of `NumNodes`). -/
theorem appendNode_preserves_I2 (net : DBNetwork) (node : DBNode) (hI2 : net.I2)
    (h32 : net.NumNodes + 1 < 2 ^ 32) : (appendNode net node).I2 := by
  obtain ⟨h1, h2⟩ := hI2
  have hnum : toUint32 ((net.NumNodes : Int) + 1) = net.NumNodes + 1 := by
    unfold toUint32; omega
  exact ⟨h1, by simp only [appendNode, hnum]; omega⟩

/-- An accepted or rejected `/rfupdate` keeps `1 <= RF <= NumNodes`. -/
theorem HandleRFUpdate_preserves_I2 (net : DBNetwork) (newRF : Int) (hI2 : net.I2)
    (h32 : net.NumNodes < 2 ^ 32) : (HandleRFUpdate net newRF).1.I2 := by
  obtain ⟨h1, h2⟩ := hI2
  unfold HandleRFUpdate
  split
  · rename_i h
    obtain ⟨_, hpos, hle⟩ := h
    have hrf : ((toUint32 newRF : Nat) : Int) = newRF := by
      unfold toUint32; omega
    constructor
    · show 1 ≤ toUint32 newRF
      omega
    · show toUint32 newRF ≤ net.NumNodes
      omega
  · exact ⟨h1, h2⟩

/-- C5 (evaluation at the failing input): `RemoveNode` does not clamp the
replication factor. On the two-node network with `RF = 2`, which satisfies
`Nodes[i].ID == i` and `1 <= RF <= NumNodes`, removing node 1 returns a network
with `NumNodes = 1` and `ReplicationFactor = 2`, for which `RF <= NumNodes`
fails. -/
theorem RemoveNode_breaks_I2 :
    (DBNetwork.mk [⟨"n0", 0, .NODESTATE_READY⟩, ⟨"n1", 1, .NODESTATE_READY⟩] 2 2).I1 ∧
    (DBNetwork.mk [⟨"n0", 0, .NODESTATE_READY⟩, ⟨"n1", 1, .NODESTATE_READY⟩] 2 2).I2 ∧
    DBNetwork.RemoveNode ⟨[⟨"n0", 0, .NODESTATE_READY⟩, ⟨"n1", 1, .NODESTATE_READY⟩], 2, 2⟩
        ⟨"n1", 1, .NODESTATE_READY⟩ = some ⟨[⟨"n0", 0, .NODESTATE_READY⟩], 1, 2⟩ ∧
    ¬ (DBNetwork.mk [⟨"n0", 0, .NODESTATE_READY⟩] 1 2).I2 := by
  refine ⟨by decide, by decide, by decide, by decide⟩

/-! ## Go maps: proofs -/

theorem GoMap.get_set_same {κ ν : Type} [DecidableEq κ] (m : List (κ × ν)) (k : κ) (v : ν) :
    GoMap.get (GoMap.set m k v) k = some v := by
  induction m with
  | nil => simp [GoMap.set, GoMap.get]
  | cons p m ih =>
    obtain ⟨k1, v1⟩ := p
    by_cases h : k1 = k
    · simp [GoMap.set, GoMap.get, h]
    · simp [GoMap.set, GoMap.get, h, ih]

theorem GoMap.get_delete_same {κ ν : Type} [DecidableEq κ] (m : List (κ × ν)) (k : κ) :
    GoMap.get (GoMap.delete m k) k = none := by
  induction m with
  | nil => simp [GoMap.delete, GoMap.get]
  | cons p m ih =>
    obtain ⟨k1, v1⟩ := p
    by_cases h : k1 = k
    · simp [GoMap.delete, h, ih]
    · simp [GoMap.delete, GoMap.get, h, ih]

theorem GoMap.get_delete_append_same {κ ν : Type} [DecidableEq κ] (m : List (κ × ν)) (k : κ)
    (v : ν) : GoMap.get (GoMap.delete m k ++ [(k, v)]) k = some v := by
  induction m with
  | nil => simp [GoMap.delete, GoMap.get]
  | cons p m ih =>
    obtain ⟨k1, v1⟩ := p
    by_cases h : k1 = k
    · simp [GoMap.delete, h, ih]
    · simp [GoMap.delete, GoMap.get, h, ih]

theorem GoMap.get_set_other {κ ν : Type} [DecidableEq κ] (m : List (κ × ν)) (k k1 : κ) (v : ν)
    (h : k ≠ k1) : GoMap.get (GoMap.set m k v) k1 = GoMap.get m k1 := by
  induction m with
  | nil => simp [GoMap.set, GoMap.get, h]
  | cons p m ih =>
    obtain ⟨k2, v2⟩ := p
    by_cases h2 : k2 = k
    · subst h2
      simp [GoMap.set, GoMap.get, h]
    · by_cases h3 : k2 = k1
      · subst h3
        simp [GoMap.set, GoMap.get, h2]
      · simp [GoMap.set, GoMap.get, h2, h3, ih]

theorem GoMap.mem_of_get {κ ν : Type} [DecidableEq κ] (m : List (κ × ν)) (k : κ) (v : ν)
    (h : GoMap.get m k = some v) : (k, v) ∈ m := by
  induction m with
  | nil => simp [GoMap.get] at h
  | cons p m ih =>
    obtain ⟨k2, v2⟩ := p
    by_cases h2 : k2 = k
    · simp only [GoMap.get, h2, if_true, Option.some.injEq] at h
      simp [h2, h]
    · simp only [GoMap.get, h2, if_false] at h
      exact List.mem_cons_of_mem _ (ih h)

theorem GoMap.keys_set {κ ν : Type} [DecidableEq κ] (m : List (κ × ν)) (k : κ) (v : ν) :
    (GoMap.set m k v).map Prod.fst =
      if k ∈ m.map Prod.fst then m.map Prod.fst else m.map Prod.fst ++ [k] := by
  induction m with
  | nil => simp [GoMap.set]
  | cons p m ih =>
    obtain ⟨k2, v2⟩ := p
    by_cases h2 : k2 = k
    · subst h2
      simp [GoMap.set]
    · have h3 : ¬ k = k2 := fun e => h2 e.symm
      simp only [GoMap.set, h2, if_false, List.map_cons, ih, List.mem_cons, h3, false_or]
      split <;> simp

theorem GoMap.nodup_keys_set {κ ν : Type} [DecidableEq κ] (m : List (κ × ν)) (k : κ) (v : ν)
    (h : (m.map Prod.fst).Nodup) : ((GoMap.set m k v).map Prod.fst).Nodup := by
  rw [GoMap.keys_set]
  split
  · exact h
  · rename_i hk
    exact List.Nodup.append h (List.nodup_singleton k) (by simpa using hk)

theorem string_length_ne_zero (k : String) (h : k ≠ "") : ¬ (k.length = 0) := by
  intro h0
  apply h
  cases k with
  | mk data =>
    simp only [String.length, List.length_eq_zero] at h0
    subst h0
    rfl

/-! ## LRU cache: proofs -/

/-- C6 (evaluation at the failing input): with capacity 2, after `Add` of three
entries with distinct keys to an empty cache, the first element is unlinked
from the recency list, but `delete(cache.lookupTable, deleted)` was called with
the value "v1" of that element, so the key "k1" is still in the lookup table:
`Find` on the first key reports a hit with the first value. `Find` on the other
two keys reports a hit with their values. -/
theorem Add_evicted_key_still_found :
    ∃ cache, (MakeLRUCache 2).addAll 0 [⟨"k1", "v1"⟩, ⟨"k2", "v2"⟩, ⟨"k3", "v3"⟩] = some cache ∧
      cache.data = [1, 2] ∧
      cache.lookupTable = [("k1", 0), ("k2", 1), ("k3", 2)] ∧
      (cache.Find "k1" 0).1 = (⟨"k1", "v1"⟩, true) ∧
      (cache.Find "k2" 0).1 = (⟨"k2", "v2"⟩, true) ∧
      (cache.Find "k3" 0).1 = (⟨"k3", "v3"⟩, true) :=
  ⟨_, rfl, by decide, by decide, by decide, by decide, by decide⟩

/-! ## Node replication engine: proofs -/

theorem isLocalTarget_iff (g_id : Int) (targets : List Nat) :
    isLocalTarget g_id targets = true ↔ toUint32 g_id ∈ targets := by
  induction targets with
  | nil => simp [isLocalTarget]
  | cons id rest ih =>
    by_cases h : id = toUint32 g_id
    · simp [isLocalTarget, h]
    · have h1 : ¬ toUint32 g_id = id := fun e => h e.symm
      simp [isLocalTarget, h, h1, ih]

/-- C7: whenever the placement of the entry is defined (`NumNodes` is not
zero), `DB_LocalWrite` returns, it returns false exactly when `uint32(g_id)` is
not among `GetTargetNodes(entry)`, and when it returns false the node state
(cache and write queue included) is unchanged. -/
theorem DB_LocalWrite_not_owner (s : NodeState) (data : DBEntry) (now : Int)
    (hN : s.g_dbNetwork.NumNodes ≠ 0) :
    ∃ targets r s1, GetTargetNodes s.g_dbNetwork data = some targets ∧
      DB_LocalWrite s data now = some (r, s1) ∧
      (r = false ↔ toUint32 s.g_id ∉ targets) ∧
      (r = false → s1 = s) := by
  obtain ⟨targets, ht⟩ : ∃ t, GetTargetNodes s.g_dbNetwork data = some t :=
    ⟨_, by simp only [GetTargetNodes, hN, if_false]; rfl⟩
  by_cases hloc : isLocalTarget s.g_id targets = true
  · refine ⟨_, true,
      (Sqlite_Write
        { s with
          g_dataCache :=
            if (s.g_dataCache.Find data.Key now).1.2 then
              (s.g_dataCache.Find data.Key now).2.UpdateValue data now
            else (s.g_dataCache.Find data.Key now).2 } data now).2, ht, ?_, ?_, ?_⟩
    · simp only [DB_LocalWrite, ht, hloc, not_true_eq_false, if_false]
    · simp [(isLocalTarget_iff _ _).mp hloc]
    · intro h; exact absurd h (by simp)
  · have hf := Bool.eq_false_iff.mpr hloc
    refine ⟨_, false, s, ht, ?_, ?_, ?_⟩
    · simp [DB_LocalWrite, ht, hf]
    · simp only [true_iff]
      exact fun h => hloc ((isLocalTarget_iff _ _).mpr h)
    · intro _; rfl

theorem DB_LocalWrite_not_owner_witness :
    (DB_LocalWrite ⟨2, ⟨[], 3, 1⟩, MakeLRUCache 500, some [], ⟨[], 0⟩⟩ ⟨"apple", "red"⟩ 0).map
        (fun r => r.1) = some false ∧
    ∃ targets r s1,
      GetTargetNodes (NodeState.mk 2 ⟨[], 3, 1⟩ (MakeLRUCache 500) (some []) ⟨[], 0⟩).g_dbNetwork
        ⟨"apple", "red"⟩ = some targets ∧
      DB_LocalWrite ⟨2, ⟨[], 3, 1⟩, MakeLRUCache 500, some [], ⟨[], 0⟩⟩ ⟨"apple", "red"⟩ 0 =
        some (r, s1) ∧
      (r = false ↔
        toUint32 (NodeState.mk 2 ⟨[], 3, 1⟩ (MakeLRUCache 500) (some []) ⟨[], 0⟩).g_id ∉ targets) ∧
      (r = false → s1 = ⟨2, ⟨[], 3, 1⟩, MakeLRUCache 500, some [], ⟨[], 0⟩⟩) :=
  ⟨by decide,
    DB_LocalWrite_not_owner ⟨2, ⟨[], 3, 1⟩, MakeLRUCache 500, some [], ⟨[], 0⟩⟩ ⟨"apple", "red"⟩ 0
      (by decide)⟩

/-! ## Durable writer: proofs -/

theorem Sqlite_WriteInternal_isSome (db : Option (List (String × String))) (entry : DBEntry) :
    (Sqlite_WriteInternal db entry).2.isSome = db.isSome := by
  cases db with
  | none => rfl
  | some table =>
    simp only [Sqlite_WriteInternal]
    split <;> rfl

theorem Sqlite_DeleteInternal_isSome (db : Option (List (String × String))) (key : String) :
    (Sqlite_DeleteInternal db key).2.isSome = db.isSome := by
  cases db with
  | none => rfl
  | some table =>
    simp only [Sqlite_DeleteInternal]
    split <;> rfl

/-- What one iteration of the executor leaves untouched. -/
theorem RunJob_cons (s : NodeState) (now : Int) (job : SqliteJob) (rest : List SqliteJob)
    (hq : s.g_sqlJobExecutor.jobQueue = job :: rest) :
    (SqliteJobExecutor.RunJob s now).g_sqlJobExecutor.jobQueue = rest ∧
    (SqliteJobExecutor.RunJob s now).g_dataCache = s.g_dataCache ∧
    (SqliteJobExecutor.RunJob s now).g_localDB.isSome = s.g_localDB.isSome := by
  unfold SqliteJobExecutor.RunJob
  rw [hq]
  obtain ⟨entry, jobType, created⟩ := job
  cases jobType
  · exact ⟨rfl, rfl, Sqlite_WriteInternal_isSome _ _⟩
  · exact ⟨rfl, rfl, Sqlite_DeleteInternal_isSome _ _⟩

theorem RunJob_write_last (s : NodeState) (now : Int) (entry : DBEntry) (created : Int)
    (table : List (String × String))
    (hq : s.g_sqlJobExecutor.jobQueue = [⟨entry, .SQLITE_WRITE, created⟩])
    (hdb : s.g_localDB = some table) (hk : entry.Key ≠ "") (hv : entry.Value ≠ "") :
    (SqliteJobExecutor.RunJob s now).g_sqlJobExecutor.jobQueue = [] ∧
    (SqliteJobExecutor.RunJob s now).g_dataCache = s.g_dataCache ∧
    (SqliteJobExecutor.RunJob s now).g_localDB =
      some (GoMap.delete table entry.Key ++ [(entry.Key, entry.Value)]) := by
  unfold SqliteJobExecutor.RunJob
  rw [hq]
  simp [Sqlite_WriteInternal, hdb, string_length_ne_zero _ hk, string_length_ne_zero _ hv]

/-- Draining a queue that ends with a write of `entry`: the queue is empty, the
cache is untouched and the table binds the key of `entry` to its value. -/
theorem Run_write_last (now : Int) (entry : DBEntry) (created : Int)
    (hk : entry.Key ≠ "") (hv : entry.Value ≠ "") :
    ∀ (prior : List SqliteJob) (s : NodeState),
      s.g_sqlJobExecutor.jobQueue = prior ++ [⟨entry, .SQLITE_WRITE, created⟩] →
      s.g_localDB.isSome = true →
      (SqliteJobExecutor.Run s now).g_sqlJobExecutor.jobQueue = [] ∧
      (SqliteJobExecutor.Run s now).g_dataCache = s.g_dataCache ∧
      ∃ table, (SqliteJobExecutor.Run s now).g_localDB = some table ∧
        GoMap.get table entry.Key = some entry.Value := by
  intro prior
  induction prior with
  | nil =>
    intro s hq hdb
    obtain ⟨table, htable⟩ := Option.isSome_iff_exists.mp hdb
    have h := RunJob_write_last s now entry created table hq htable hk hv
    simp only [SqliteJobExecutor.Run, hq, List.nil_append, List.length_singleton,
      Function.iterate_succ, Function.iterate_zero, Function.comp_apply, id_eq]
    exact ⟨h.1, h.2.1, _, h.2.2, GoMap.get_delete_append_same _ _ _⟩
  | cons job prior ih =>
    intro s hq hdb
    rw [List.cons_append] at hq
    have h := RunJob_cons s now job (prior ++ [⟨entry, .SQLITE_WRITE, created⟩]) hq
    have ih1 := ih (SqliteJobExecutor.RunJob s now) h.1 (by rw [h.2.2]; exact hdb)
    have hrun : SqliteJobExecutor.Run s now =
        SqliteJobExecutor.Run (SqliteJobExecutor.RunJob s now) now := by
      simp only [SqliteJobExecutor.Run, hq, h.1, List.length_cons,
        Function.iterate_succ, Function.comp_apply]
    rw [hrun]
    exact ⟨ih1.1, by rw [ih1.2.1, h.2.1], ih1.2.2⟩

theorem Find_hit_value (cache : LRUCache) (key : String) (now : Int)
    (h : (cache.Find key now).1.2 = true) :
    ∃ p, GoMap.get cache.lookupTable key = some p ∧
      ¬ (now - (cache.elements p).createdAt > CACHE_ITEM_EXPIRY_TIME_S) ∧
      (cache.Find key now).1.1 = ⟨key, (cache.elements p).data⟩ := by
  unfold LRUCache.Find at h ⊢
  cases hg : GoMap.get cache.lookupTable key with
  | none => simp [hg] at h
  | some p =>
    simp only [hg] at h ⊢
    by_cases hexp : now - (cache.elements p).createdAt > CACHE_ITEM_EXPIRY_TIME_S
    · simp [hexp] at h
    · exact ⟨p, rfl, hexp, by simp [hexp]⟩

/-- The cache after the `Find` and `UpdateValue` of `DB_LocalWrite`: whatever
element the lookup table then holds for the key carries the written value. -/
theorem writeCache_value (cache : LRUCache) (k v : String) (now : Int) (p : Nat)
    (hp : GoMap.get
      (if (cache.Find k now).1.2 then (cache.Find k now).2.UpdateValue ⟨k, v⟩ now
        else (cache.Find k now).2).lookupTable k = some p) :
    ((if (cache.Find k now).1.2 then (cache.Find k now).2.UpdateValue ⟨k, v⟩ now
        else (cache.Find k now).2).elements p).data = v := by
  unfold LRUCache.Find at hp ⊢
  cases hg : GoMap.get cache.lookupTable k with
  | none => simp [hg] at hp
  | some q =>
    simp only [hg] at hp ⊢
    by_cases hexp : now - (cache.elements q).createdAt > CACHE_ITEM_EXPIRY_TIME_S
    · simp [hexp, GoMap.get_delete_same] at hp
    · simp only [hexp, if_false, if_true, LRUCache.UpdateValue, hg] at hp ⊢
      have hpq : q = p := Option.some.inj hp
      simp [hpq]

/-- C8: on a node with an open store, for every entry `(k, v)` with non-empty
`k` and `v` whose placement window contains `uint32(g_id)`, and for every prior
cache, queue and table content: `DB_LocalWrite(k, v)` returns true, the job
executor then empties the queue, and after that `DB_LocalRead(k)` returns the
entry `(k, v)`, at every clock reading. -/
theorem LocalWrite_then_LocalRead (s : NodeState) (k v : String) (now tRun tRead : Int)
    (targets : List Nat)
    (hdb : s.g_localDB.isSome = true) (hk : k ≠ "") (hv : v ≠ "")
    (ht : GetTargetNodes s.g_dbNetwork ⟨k, v⟩ = some targets)
    (hself : toUint32 s.g_id ∈ targets) :
    ∃ s1, DB_LocalWrite s ⟨k, v⟩ now = some (true, s1) ∧
      (SqliteJobExecutor.Run s1 tRun).g_sqlJobExecutor.jobQueue = [] ∧
      (DB_LocalRead (SqliteJobExecutor.Run s1 tRun) k tRead).1 = some ⟨k, v⟩ := by
  obtain ⟨table0, htable0⟩ := Option.isSome_iff_exists.mp hdb
  have hloc := (isLocalTarget_iff s.g_id targets).mpr hself
  have hw : DB_LocalWrite s ⟨k, v⟩ now = some (true,
      Sqlite_NewJob
        { s with
          g_dataCache :=
            if (s.g_dataCache.Find k now).1.2 then
              (s.g_dataCache.Find k now).2.UpdateValue ⟨k, v⟩ now
            else (s.g_dataCache.Find k now).2 } ⟨k, v⟩ .SQLITE_WRITE now) := by
    simp [DB_LocalWrite, ht, hloc, Sqlite_Write, htable0, string_length_ne_zero _ hk,
      string_length_ne_zero _ hv]
  refine ⟨_, hw, ?_⟩
  have hrun := Run_write_last tRun ⟨k, v⟩ now hk hv s.g_sqlJobExecutor.jobQueue
    (Sqlite_NewJob
        { s with
          g_dataCache :=
            if (s.g_dataCache.Find k now).1.2 then
              (s.g_dataCache.Find k now).2.UpdateValue ⟨k, v⟩ now
            else (s.g_dataCache.Find k now).2 } ⟨k, v⟩ .SQLITE_WRITE now) rfl hdb
  obtain ⟨hq, hcache, table, htable, hget⟩ := hrun
  refine ⟨hq, ?_⟩
  unfold DB_LocalRead
  rcases hfind : (SqliteJobExecutor.Run _ tRun).g_dataCache.Find k tRead with ⟨⟨value, b⟩, c1⟩
  cases b with
  | true =>
    simp only
    have hhit := Find_hit_value _ k tRead (by rw [hfind])
    obtain ⟨p, hp, _, hval⟩ := hhit
    rw [hfind] at hval
    simp only at hval
    rw [hcache] at hp hval
    simp only [Sqlite_NewJob] at hp hval
    rw [hval, writeCache_value s.g_dataCache k v now p hp]
  | false =>
    simp only [Sqlite_Read, htable, string_length_ne_zero _ hk, if_false, hget]

theorem LocalWrite_then_LocalRead_witness :
    ∃ s1, DB_LocalWrite exampleOwner ⟨"apple", "red"⟩ 10 = some (true, s1) ∧
      (SqliteJobExecutor.Run s1 11).g_sqlJobExecutor.jobQueue = [] ∧
      (DB_LocalRead (SqliteJobExecutor.Run s1 11) "apple" 12).1 = some ⟨"apple", "red"⟩ :=
  LocalWrite_then_LocalRead exampleOwner "apple" "red" 10 11 12 [1, 2]
    (by decide) (by decide) (by decide) (by decide) (by decide)

theorem pushBack_Find (cache : LRUCache) (entry : DBEntry) (now t : Int)
    (ht : t - now ≤ CACHE_ITEM_EXPIRY_TIME_S) :
    ((cache.pushBack entry now).Find entry.Key t).1 = (⟨entry.Key, entry.Value⟩, true) := by
  have hexp : ¬ (t - now > CACHE_ITEM_EXPIRY_TIME_S) := by omega
  simp [LRUCache.Find, LRUCache.pushBack, GoMap.get_set_same, hexp]

theorem Add_isSome (cache : LRUCache) (entry : DBEntry) (now : Int) (hsize : 1 ≤ cache.size) :
    ∃ cache1, cache.Add entry now = some cache1 := by
  unfold LRUCache.Add
  split
  · rename_i hfull
    cases hd : cache.data with
    | nil => rw [hd] at hfull; simp at hfull; omega
    | cons e rest => simp [LRUCache.evictFront, hd]
  · exact ⟨_, rfl⟩

theorem Add_then_Find (cache cache1 : LRUCache) (entry : DBEntry) (now t : Int)
    (hadd : cache.Add entry now = some cache1) (ht : t - now ≤ CACHE_ITEM_EXPIRY_TIME_S) :
    (cache1.Find entry.Key t).1 = (⟨entry.Key, entry.Value⟩, true) := by
  unfold LRUCache.Add at hadd
  split at hadd
  · cases hev : cache.evictFront with
    | none => simp [hev] at hadd
    | some c =>
      simp only [hev, Option.map_some', Option.some.injEq] at hadd
      rw [← hadd]
      exact pushBack_Find c entry now t ht
  · rw [← Option.some.inj hadd]
    exact pushBack_Find cache entry now t ht

theorem Find_size (cache : LRUCache) (key : String) (now : Int) :
    (cache.Find key now).2.size = cache.size := by
  unfold LRUCache.Find
  split
  · split <;> rfl
  · rfl

theorem Sqlite_Read_key (s : NodeState) (key : String) (savedEntry : DBEntry)
    (h : Sqlite_Read s key = some savedEntry) : savedEntry.Key = key := by
  unfold Sqlite_Read at h
  split at h
  · exact absurd h (by simp)
  · split at h
    · exact absurd h (by simp)
    · split at h
      · exact absurd h (by simp)
      · rw [← Option.some.inj h]

theorem readFromOwners_eq (net : DBNetwork) (httpGet : String → String → PeerResponse)
    (g_id : Int) (key : String) (owners : List Nat) :
    readFromOwners net httpGet g_id key owners =
      (owners.filter (fun t => decide (t ≠ toUint32 g_id))).findSome?
        (GetDataFromNode net httpGet key) := by
  induction owners with
  | nil => rfl
  | cons t rest ih =>
    by_cases h : t = toUint32 g_id
    · simp [readFromOwners, h, ih]
    · cases hg : GetDataFromNode net httpGet key t with
      | none => simp [readFromOwners, h, hg, ih, List.findSome?]
      | some e => simp [readFromOwners, h, hg, List.findSome?]

/-- The value of `DB_Read` on a cache miss, in closed form. -/
theorem DB_Read_miss (s : NodeState) (httpGet : String → String → PeerResponse) (key : String)
    (now : Int) (window : List Nat)
    (hmiss : (s.g_dataCache.Find key now).1.2 = false)
    (hw : GetTargetNodes s.g_dbNetwork ⟨key, ""⟩ = some window) :
    DB_Read s httpGet key now =
      match (if toUint32 s.g_id ∈ window then Sqlite_Read s key else none) with
      | some savedEntry =>
        ((s.g_dataCache.Find key now).2.Add savedEntry now).map
          (fun cache2 => (some savedEntry, { s with g_dataCache := cache2 }))
      | none =>
        some ((window.filter (fun t => decide (t ≠ toUint32 s.g_id))).findSome?
            (GetDataFromNode s.g_dbNetwork httpGet key),
          { s with g_dataCache := (s.g_dataCache.Find key now).2 }) := by
  unfold DB_Read
  rcases hfind : s.g_dataCache.Find key now with ⟨⟨value, b⟩, c1⟩
  rw [hfind] at hmiss
  simp only at hmiss
  subst hmiss
  simp only [hw]
  by_cases hloc : toUint32 s.g_id ∈ window
  · have hl := (isLocalTarget_iff s.g_id window).mpr hloc
    simp only [hl, hloc, if_true]
    have hrd : Sqlite_Read { s with g_dataCache := c1 } key = Sqlite_Read s key := rfl
    rw [hrd]
    cases Sqlite_Read s key with
    | none => simp only [readFromOwners_eq]
    | some e => rfl
  · have hl : isLocalTarget s.g_id window = false :=
      Bool.eq_false_iff.mpr (fun h => hloc ((isLocalTarget_iff s.g_id window).mp h))
    simp [hl, hloc, readFromOwners_eq]

theorem getDataLoop_unique (httpGet : String → String → PeerResponse) (key : String) (id : Nat)
    (node : DBNode) (hid : node.ID = toInt32 (id : Int)) :
    ∀ (nodes : List DBNode), node ∈ nodes →
      (∀ n ∈ nodes, n.ID = toInt32 (id : Int) → n = node) →
      getDataLoop httpGet key id nodes =
        match httpGet node.Addr key with
        | .transportError => none
        | .response statusCode body => if statusCode = 200 then body else none := by
  intro nodes
  induction nodes with
  | nil => intro hmem; simp at hmem
  | cons n rest ih =>
    intro hmem huniq
    by_cases hn : n.ID = toInt32 (id : Int)
    · have hnn : n = node := huniq n (List.mem_cons_self _ _) hn
      subst hnn
      simp only [getDataLoop, hn, if_true]
      cases hr : httpGet n.Addr key with
      | transportError => rfl
      | response statusCode body =>
        by_cases h200 : statusCode = 200
        · simp [h200]
        · simp only [h200, if_false]
          by_cases hm : n ∈ rest
          · have := ih hm (fun m hm1 hmid => huniq m (List.mem_cons_of_mem _ hm1) hmid)
            rw [this, hr]
            simp [h200]
          · have hnone : ∀ (l : List DBNode), (∀ m ∈ l, m.ID ≠ toInt32 (id : Int)) →
                getDataLoop httpGet key id l = none := by
              intro l
              induction l with
              | nil => intro _; rfl
              | cons m l ihl =>
                intro hl
                simp only [getDataLoop, hl m (List.mem_cons_self _ _), if_false]
                exact ihl (fun m1 hm1 => hl m1 (List.mem_cons_of_mem _ hm1))
            apply hnone
            intro m hm1 hmid
            have := huniq m (List.mem_cons_of_mem _ hm1) hmid
            rw [this] at hm1
            exact hm hm1
    · have hne : n ≠ node := fun e => hn (e ▸ hid)
      have hmem1 : node ∈ rest := by
        rcases List.mem_cons.mp hmem with h | h
        · exact absurd h.symm hne
        · exact h
      simp only [getDataLoop, hn, if_false]
      exact ih hmem1 (fun m hm1 hmid => huniq m (List.mem_cons_of_mem _ hm1) hmid)

/-- C9: `DB_Read(key)`, with the table and the peers as lookup functions.
(1) On a cache hit it returns the cached entry. On a cache miss with the window
of the key defined: (2) if `uint32(g_id)` is in the window and the table holds
the key, it returns the stored entry, and a `Find` of the key on the resulting
cache within the expiry time hits with that entry; (3) otherwise it returns the
answer of the first window ID other than `uint32(g_id)`, in window order, for
which `GetDataFromNode` returns an entry; (4) it returns nil exactly when the
table lookup (if owner) and `GetDataFromNode` for every such ID fail; (5) for
an ID carried by one node of the view only, `GetDataFromNode` returns the
decoded body of a 200 response of that node and fails on a transport error or
on any other status. -/
theorem DB_Read_cases (s : NodeState) (httpGet : String → String → PeerResponse) (key : String)
    (now : Int) (hsize : 1 ≤ s.g_dataCache.size) :
    (∀ value, (s.g_dataCache.Find key now).1 = (value, true) →
      (DB_Read s httpGet key now).map (fun r => r.1) = some (some value)) ∧
    (∀ window, (s.g_dataCache.Find key now).1.2 = false →
      GetTargetNodes s.g_dbNetwork ⟨key, ""⟩ = some window →
      (∀ savedEntry, toUint32 s.g_id ∈ window → Sqlite_Read s key = some savedEntry →
        ∃ s1, DB_Read s httpGet key now = some (some savedEntry, s1) ∧
          ∀ t, t - now ≤ CACHE_ITEM_EXPIRY_TIME_S →
            (s1.g_dataCache.Find key t).1 = (savedEntry, true)) ∧
      ((toUint32 s.g_id ∉ window ∨ Sqlite_Read s key = none) →
        (DB_Read s httpGet key now).map (fun r => r.1) =
          some ((window.filter (fun t => decide (t ≠ toUint32 s.g_id))).findSome?
            (GetDataFromNode s.g_dbNetwork httpGet key))) ∧
      ((DB_Read s httpGet key now).map (fun r => r.1) = some none ↔
        (toUint32 s.g_id ∉ window ∨ Sqlite_Read s key = none) ∧
          ∀ t ∈ window, t ≠ toUint32 s.g_id →
            GetDataFromNode s.g_dbNetwork httpGet key t = none)) ∧
    (∀ (t : Nat) (node : DBNode), node ∈ s.g_dbNetwork.Nodes → node.ID = toInt32 (t : Int) →
      (∀ n ∈ s.g_dbNetwork.Nodes, n.ID = toInt32 (t : Int) → n = node) →
      GetDataFromNode s.g_dbNetwork httpGet key t =
        match httpGet node.Addr key with
        | .transportError => none
        | .response statusCode body => if statusCode = 200 then body else none) := by
  refine ⟨?_, ?_, fun t node hmem hid huniq => getDataLoop_unique httpGet key t node hid _ hmem huniq⟩
  · intro value hhit
    unfold DB_Read
    rcases hfind : s.g_dataCache.Find key now with ⟨⟨value1, b⟩, c1⟩
    rw [hfind] at hhit
    simp only [Prod.mk.injEq] at hhit
    obtain ⟨hv, hb⟩ := hhit
    subst hv hb
    rfl
  · intro window hmiss hw
    have hread := DB_Read_miss s httpGet key now window hmiss hw
    have hpeers : ∀ (hno : toUint32 s.g_id ∉ window ∨ Sqlite_Read s key = none),
        DB_Read s httpGet key now =
          some ((window.filter (fun t => decide (t ≠ toUint32 s.g_id))).findSome?
              (GetDataFromNode s.g_dbNetwork httpGet key),
            { s with g_dataCache := (s.g_dataCache.Find key now).2 }) := by
      intro hno
      rw [hread]
      rcases hno with hno | hno
      · simp [hno]
      · simp [hno]
    refine ⟨?_, ?_, ?_⟩
    · intro savedEntry hloc hsaved
      have hsz : 1 ≤ (s.g_dataCache.Find key now).2.size := by rw [Find_size]; exact hsize
      obtain ⟨cache2, hadd⟩ := Add_isSome (s.g_dataCache.Find key now).2 savedEntry now hsz
      refine ⟨{ s with g_dataCache := cache2 }, ?_, ?_⟩
      · rw [hread]
        simp [hloc, hsaved, hadd]
      · intro t ht
        have hkey := Sqlite_Read_key s key savedEntry hsaved
        have h := Add_then_Find _ cache2 savedEntry now t hadd ht
        rw [hkey] at h
        rw [h, ← hkey]
    · intro hno
      rw [hpeers hno]
      rfl
    · constructor
      · intro hnil
        by_cases hno : toUint32 s.g_id ∉ window ∨ Sqlite_Read s key = none
        · refine ⟨hno, ?_⟩
          rw [hpeers hno] at hnil
          simp only [Option.map_some', Option.some.injEq, List.findSome?_eq_none_iff,
            List.mem_filter, decide_eq_true_eq, and_imp] at hnil
          exact hnil
        · exfalso
          simp only [not_or, not_not] at hno
          obtain ⟨hloc, hsome⟩ := hno
          obtain ⟨e, he⟩ := Option.ne_none_iff_exists'.mp hsome
          rw [hread] at hnil
          simp only [hloc, if_true, he] at hnil
          cases hadd : (s.g_dataCache.Find key now).2.Add e now with
          | none => simp [hadd] at hnil
          | some c => simp [hadd] at hnil
      · rintro ⟨hno, hall⟩
        rw [hpeers hno]
        simp only [Option.map_some', Option.some.injEq, List.findSome?_eq_none_iff,
          List.mem_filter, decide_eq_true_eq, and_imp]
        exact hall

theorem DB_Read_cases_witness :
    (DB_Read exampleReader examplePeers "apple" 0).map (fun r => r.1) =
      some (some ⟨"apple", "red"⟩) :=
  (((DB_Read_cases exampleReader examplePeers "apple" 0 (by decide)).2.1 [1, 2]
    (by decide) (by decide)).2.1 (Or.inl (by decide))).trans (by decide)

/-! ## Rehash: proofs -/

theorem addToChunk_owners (table : List (Nat × DBChunk)) (t : Nat) (e : DBEntry)
    (h : OwnersMatch table) : OwnersMatch (addToChunk table t e) := by
  intro t1 chunk hget
  unfold addToChunk at hget
  by_cases ht : t = t1
  · subst ht
    cases hg : GoMap.get table t with
    | none =>
      simp only [hg, GoMap.get_set_same, Option.some.injEq] at hget
      rw [← hget]
    | some c =>
      simp only [hg, GoMap.get_set_same, Option.some.injEq] at hget
      rw [← hget]
      exact h t c hg
  · cases hg : GoMap.get table t with
    | none =>
      simp only [hg, GoMap.get_set_other _ _ _ _ ht] at hget
      exact h t1 chunk hget
    | some c =>
      simp only [hg, GoMap.get_set_other _ _ _ _ ht] at hget
      exact h t1 chunk hget

theorem addToChunk_here (table : List (Nat × DBChunk)) (t : Nat) (e : DBEntry)
    (h : OwnersMatch table) : ChunkAt (addToChunk table t e) t e := by
  unfold addToChunk ChunkAt
  cases hg : GoMap.get table t with
  | none => exact ⟨_, GoMap.get_set_same _ _ _, rfl, by simp⟩
  | some c => exact ⟨_, GoMap.get_set_same _ _ _, h t c hg, by simp⟩

theorem addToChunk_mono (table : List (Nat × DBChunk)) (t : Nat) (e : DBEntry)
    (t1 : Nat) (e1 : DBEntry) (h : ChunkAt table t1 e1) : ChunkAt (addToChunk table t e) t1 e1 := by
  obtain ⟨c1, hc1, hown, hmem⟩ := h
  unfold addToChunk ChunkAt
  by_cases ht : t = t1
  · subst ht
    simp only [hc1, GoMap.get_set_same]
    exact ⟨_, rfl, hown, List.mem_append_left _ hmem⟩
  · cases hg : GoMap.get table t with
    | none => simp only [GoMap.get_set_other _ _ _ _ ht]; exact ⟨c1, hc1, hown, hmem⟩
    | some c => simp only [GoMap.get_set_other _ _ _ _ ht]; exact ⟨c1, hc1, hown, hmem⟩

theorem addToChunk_nodup (table : List (Nat × DBChunk)) (t : Nat) (e : DBEntry)
    (h : (table.map Prod.fst).Nodup) : ((addToChunk table t e).map Prod.fst).Nodup := by
  unfold addToChunk
  cases GoMap.get table t with
  | none => exact GoMap.nodup_keys_set _ _ _ h
  | some c => exact GoMap.nodup_keys_set _ _ _ h

/-- The inner loop of `DB_RehashData` for one entry. -/
theorem bucketEntry_spec (g_id : Int) (e : DBEntry) :
    ∀ (targets : List Nat) (acc : List (Nat × DBChunk) × Bool),
      OwnersMatch acc.1 → (acc.1.map Prod.fst).Nodup →
      OwnersMatch (bucketEntry g_id e targets acc).1 ∧
      ((bucketEntry g_id e targets acc).1.map Prod.fst).Nodup ∧
      (∀ t1 e1, ChunkAt acc.1 t1 e1 → ChunkAt (bucketEntry g_id e targets acc).1 t1 e1) ∧
      (∀ t ∈ targets, (t : Int) ≠ g_id → ChunkAt (bucketEntry g_id e targets acc).1 t e) ∧
      (bucketEntry g_id e targets acc).2 = (acc.2 && noTargetIsSelf g_id targets) := by
  intro targets
  induction targets with
  | nil =>
    intro acc ho hn
    refine ⟨ho, hn, fun _ _ h => h, fun t ht => absurd ht (List.not_mem_nil t), ?_⟩
    simp [bucketEntry, noTargetIsSelf]
  | cons t rest ih =>
    intro acc ho hn
    by_cases hself : (t : Int) = g_id
    · have h := ih (acc.1, false) ho hn
      simp only [bucketEntry, hself, ne_eq, not_true_eq_false, if_false]
      refine ⟨h.1, h.2.1, h.2.2.1, ?_, ?_⟩
      · intro t1 ht1 hne
        rcases List.mem_cons.mp ht1 with h1 | h1
        · subst h1; exact absurd hself hne
        · exact h.2.2.2.1 t1 h1 hne
      · rw [h.2.2.2.2]
        simp [noTargetIsSelf, hself]
    · have h := ih (addToChunk acc.1 t e, acc.2) (addToChunk_owners _ _ _ ho)
        (addToChunk_nodup _ _ _ hn)
      simp only [bucketEntry, ne_eq, hself, not_false_eq_true, if_true]
      refine ⟨h.1, h.2.1, ?_, ?_, ?_⟩
      · intro t1 e1 hc
        exact h.2.2.1 t1 e1 (addToChunk_mono _ _ _ _ _ hc)
      · intro t1 ht1 hne
        rcases List.mem_cons.mp ht1 with h1 | h1
        · subst h1
          exact h.2.2.1 _ _ (addToChunk_here _ _ _ ho)
        · exact h.2.2.2.1 t1 h1 hne
      · rw [h.2.2.2.2]
        simp [noTargetIsSelf, hself]

/-- The outer loop of `DB_RehashData`: it returns whenever `NumNodes` is not
zero; every processed entry is in the chunk of each of its targets other than
self, and the deletes started are those of the entries that leave the node. -/
theorem rehashLoop_spec (net : DBNetwork) (g_id : Int) (hN : net.NumNodes ≠ 0) :
    ∀ (es : List DBEntry) (plan : RehashPlan),
      OwnersMatch plan.nodeToEntriesTable → (plan.nodeToEntriesTable.map Prod.fst).Nodup →
      ∃ r, rehashLoop net g_id es plan = some r ∧
        OwnersMatch r.nodeToEntriesTable ∧
        (r.nodeToEntriesTable.map Prod.fst).Nodup ∧
        (∀ t1 e1, ChunkAt plan.nodeToEntriesTable t1 e1 → ChunkAt r.nodeToEntriesTable t1 e1) ∧
        (∀ e ∈ es, ∀ targets, GetTargetNodes net e = some targets →
          ∀ t ∈ targets, (t : Int) ≠ g_id → ChunkAt r.nodeToEntriesTable t e) ∧
        r.deletes = plan.deletes ++ es.filter (leavesNode net g_id) := by
  intro es
  induction es with
  | nil =>
    intro plan ho hn
    exact ⟨plan, rfl, ho, hn, fun _ _ h => h, fun e he => absurd he (List.not_mem_nil e),
      by simp⟩
  | cons e rest ih =>
    intro plan ho hn
    obtain ⟨targets, ht⟩ : ∃ t, GetTargetNodes net e = some t :=
      ⟨_, by simp only [GetTargetNodes, hN, if_false]; rfl⟩
    have hb := bucketEntry_spec g_id e targets (plan.nodeToEntriesTable, true) ho hn
    obtain ⟨hbo, hbn, hbmono, hbhere, hbflag⟩ := hb
    obtain ⟨r, hr, hro, hrn, hrmono, hrhere, hrdel⟩ :=
      ih ⟨(bucketEntry g_id e targets (plan.nodeToEntriesTable, true)).1,
          if (bucketEntry g_id e targets (plan.nodeToEntriesTable, true)).2 then
            plan.deletes ++ [e] else plan.deletes⟩ hbo hbn
    refine ⟨r, ?_, hro, hrn, ?_, ?_, ?_⟩
    · simp only [rehashLoop, ht]
      exact hr
    · intro t1 e1 hc
      exact hrmono t1 e1 (hbmono t1 e1 hc)
    · intro e1 he1 targets1 ht1 t htm hne
      rcases List.mem_cons.mp he1 with h1 | h1
      · subst h1
        rw [ht] at ht1
        have := Option.some.inj ht1
        subst this
        exact hrmono t e1 (hbhere t htm hne)
      · exact hrhere e1 h1 targets1 ht1 t htm hne
    · rw [hrdel]
      simp only [hbflag, Bool.true_and]
      have hl : leavesNode net g_id e = noTargetIsSelf g_id targets := by
        simp only [leavesNode, ht]
      cases hnt : noTargetIsSelf g_id targets with
      | true => simp [List.filter, hl, hnt]
      | false => simp [List.filter, hl, hnt]

/-- C10: with an open store and `NumNodes` not zero, `DB_RehashData` returns;
it starts at most one `SendChunkToNodeWithID` per target ID; for every entry
`e` of the local chunk and every ID `t` of `GetTargetNodes(e)` with
`int(t) != g_id`, the chunk sent for `t` has `Owner == t` and contains `e`;
and when `ReplicationFactor >= 1`, every entry whose local delete is started
is contained in at least one chunk that is sent. -/
theorem DB_RehashData_ships (s : NodeState)
    (hdb : s.g_localDB.isSome = true) (hN : s.g_dbNetwork.NumNodes ≠ 0) :
    ∃ localChunk result, DB_GetLocalChunk s = some localChunk ∧
      DB_RehashData s = some result ∧
      (result.shipped.map Prod.fst).Nodup ∧
      (∀ e ∈ localChunk.Entries, ∀ targets,
        GetTargetNodes s.g_dbNetwork e = some targets →
        ∀ t ∈ targets, (t : Int) ≠ s.g_id →
          ∃ chunk, GoMap.get result.shipped t = some chunk ∧ chunk.Owner = t ∧
            e ∈ chunk.Entries) ∧
      (1 ≤ s.g_dbNetwork.ReplicationFactor →
        ∀ e ∈ result.deletes, e ∈ localChunk.Entries ∧
          ∃ t chunk, (t, chunk) ∈ result.shipped ∧ chunk.Owner = t ∧ e ∈ chunk.Entries) := by
  obtain ⟨table, htable⟩ := Option.isSome_iff_exists.mp hdb
  have hchunk : DB_GetLocalChunk s =
      some ⟨table.map (fun row => ⟨row.1, row.2⟩), toUint32 s.g_id⟩ := by
    simp [DB_GetLocalChunk, Sqlite_ReadAll, htable]
  obtain ⟨r, hr, _, hrn, _, hrhere, hrdel⟩ :=
    rehashLoop_spec s.g_dbNetwork s.g_id hN (table.map (fun row => ⟨row.1, row.2⟩)) ⟨[], []⟩
      (fun t c h => by simp [GoMap.get] at h) (by simp)
  refine ⟨_, ⟨r.nodeToEntriesTable, r.deletes, { s with g_dataCache := s.g_dataCache.Purge }⟩,
    hchunk, ?_, hrn, hrhere, ?_⟩
  · simp only [DB_RehashData, hchunk, hr, Option.map_some']
  · intro hRF e he
    simp only [hrdel, List.nil_append, List.mem_filter] at he
    obtain ⟨hmem, hleave⟩ := he
    refine ⟨hmem, ?_⟩
    obtain ⟨targets, ht⟩ : ∃ t, GetTargetNodes s.g_dbNetwork e = some t :=
      ⟨_, by simp only [GetTargetNodes, hN, if_false]; rfl⟩
    have hlen : targets.length = s.g_dbNetwork.ReplicationFactor := by
      simp only [GetTargetNodes, hN, if_false, Option.some.injEq] at ht
      rw [← ht, targetLoop_length]
    simp only [leavesNode, ht, noTargetIsSelf, List.all_eq_true, decide_eq_true_eq] at hleave
    cases targets with
    | nil => simp at hlen; omega
    | cons t rest =>
      obtain ⟨chunk, hget, hown, hin⟩ :=
        hrhere e hmem (t :: rest) ht t (List.mem_cons_self _ _) (hleave t (List.mem_cons_self _ _))
      exact ⟨t, chunk, GoMap.mem_of_get _ _ _ hget, hown, hin⟩

theorem DB_RehashData_ships_witness :
    (DB_RehashData exampleReader).map (fun r => (r.shipped, r.deletes)) =
      some ([(1, ⟨[⟨"kiwi", "brown"⟩, ⟨"apple", "stale"⟩], 1⟩), (2, ⟨[⟨"apple", "stale"⟩], 2⟩)],
        [⟨"apple", "stale"⟩]) ∧
    ∃ localChunk result, DB_GetLocalChunk exampleReader = some localChunk ∧
      DB_RehashData exampleReader = some result ∧
      (result.shipped.map Prod.fst).Nodup ∧
      (∀ e ∈ localChunk.Entries, ∀ targets,
        GetTargetNodes exampleReader.g_dbNetwork e = some targets →
        ∀ t ∈ targets, (t : Int) ≠ exampleReader.g_id →
          ∃ chunk, GoMap.get result.shipped t = some chunk ∧ chunk.Owner = t ∧
            e ∈ chunk.Entries) ∧
      (1 ≤ exampleReader.g_dbNetwork.ReplicationFactor →
        ∀ e ∈ result.deletes, e ∈ localChunk.Entries ∧
          ∃ t chunk, (t, chunk) ∈ result.shipped ∧ chunk.Owner = t ∧ e ∈ chunk.Entries) :=
  ⟨by decide, DB_RehashData_ships exampleReader (by decide) (by decide)⟩

/-! ## Rehash and the scheduled deletes: proofs -/

theorem GoMap.mem_delete {κ ν : Type} [DecidableEq κ] (m : List (κ × ν)) (k : κ) (p : κ × ν) :
    p ∈ GoMap.delete m k ↔ p ∈ m ∧ p.1 ≠ k := by
  induction m with
  | nil => simp [GoMap.delete]
  | cons q m ih =>
    obtain ⟨k1, v1⟩ := q
    by_cases h : k1 = k
    · subst h
      simp only [GoMap.delete, if_true, ih, List.mem_cons]
      constructor
      · rintro ⟨hm, hne⟩; exact ⟨Or.inr hm, hne⟩
      · rintro ⟨hm | hm, hne⟩
        · rw [hm] at hne; exact absurd rfl hne
        · exact ⟨hm, hne⟩
    · simp only [GoMap.delete, h, if_false, List.mem_cons, ih]
      constructor
      · rintro (hm | ⟨hm, hne⟩)
        · rw [hm]; exact ⟨Or.inl rfl, h⟩
        · exact ⟨Or.inr hm, hne⟩
      · rintro ⟨hm | hm, hne⟩
        · exact Or.inl hm
        · exact Or.inr ⟨hm, hne⟩

theorem leavesNode_key (net : DBNetwork) (g_id : Int) (k v v1 : String) :
    leavesNode net g_id ⟨k, v⟩ = leavesNode net g_id ⟨k, v1⟩ := rfl

/-- The writer never stores an empty key: a job leaves a table without empty
keys without empty keys. -/
theorem jobEffect_keys (table table1 : List (String × String)) (job : SqliteJob)
    (hkeys : ∀ row ∈ table, row.1 ≠ "") (h : jobEffect (some table) job = some table1) :
    ∀ row ∈ table1, row.1 ≠ "" := by
  obtain ⟨entry, jobType, created⟩ := job
  cases jobType with
  | SQLITE_WRITE =>
    simp only [jobEffect, Sqlite_WriteInternal] at h
    split at h
    · rw [← Option.some.inj h]; exact hkeys
    · rename_i hne
      rw [← Option.some.inj h]
      intro row hrow
      rcases List.mem_append.mp hrow with h1 | h1
      · exact hkeys row ((GoMap.mem_delete _ _ _).mp h1).1
      · rw [List.mem_singleton.mp h1]
        intro he
        apply hne
        left
        simp only at he
        rw [he]
        rfl
  | SQLITE_DELETE =>
    simp only [jobEffect, Sqlite_DeleteInternal] at h
    split at h
    · rw [← Option.some.inj h]; exact hkeys
    · rw [← Option.some.inj h]
      intro row hrow
      exact hkeys row ((GoMap.mem_delete _ _ _).mp hrow).1

theorem nodeExistsLoop_iff (node : DBNode) (nodes : List DBNode) :
    nodeExistsLoop node nodes = true ↔ ∃ m ∈ nodes, m.Addr = node.Addr ∧ m.ID = node.ID := by
  induction nodes with
  | nil => simp [nodeExistsLoop]
  | cons c rest ih =>
    by_cases h : c.Addr = node.Addr ∧ c.ID = node.ID
    · have hs : c.IsSameAs node = true := by simp [DBNode.IsSameAs, h.1, h.2]
      simp only [nodeExistsLoop, hs, if_true, List.mem_cons, true_iff]
      exact ⟨c, Or.inl rfl, h⟩
    · have hs : c.IsSameAs node = false := by
        simp only [DBNode.IsSameAs, Bool.and_eq_false_iff, decide_eq_false_iff_not]
        by_cases ha : c.Addr = node.Addr
        · exact Or.inr (fun hid => h ⟨ha, hid⟩)
        · exact Or.inl ha
      simp only [nodeExistsLoop, hs, Bool.false_eq_true, if_false, ih, List.mem_cons]
      constructor
      · rintro ⟨m, hm, hp⟩; exact ⟨m, Or.inr hm, hp⟩
      · rintro ⟨m, hm | hm, hp⟩
        · rw [hm] at hp; exact absurd hp h
        · exact ⟨m, hm, hp⟩

theorem diffLoop_iff (view : DBNetwork) (nodes : List DBNode) :
    diffLoop view nodes = true ↔
      ∃ n ∈ nodes, ∀ m ∈ view.Nodes, ¬ (m.Addr = n.Addr ∧ m.ID = n.ID) := by
  induction nodes with
  | nil => simp [diffLoop]
  | cons n rest ih =>
    by_cases h : view.NodeExists n = true
    · have hex := (nodeExistsLoop_iff n view.Nodes).mp h
      simp only [diffLoop, h, not_true_eq_false, if_false, ih, List.mem_cons]
      constructor
      · rintro ⟨x, hx, hp⟩; exact ⟨x, Or.inr hx, hp⟩
      · rintro ⟨x, hx | hx, hp⟩
        · obtain ⟨m, hm, hmp⟩ := hex
          rw [hx] at hp
          exact absurd hmp (hp m hm)
        · exact ⟨x, hx, hp⟩
    · have hnone : ∀ m ∈ view.Nodes, ¬ (m.Addr = n.Addr ∧ m.ID = n.ID) := by
        intro m hm hp
        exact h ((nodeExistsLoop_iff n view.Nodes).mpr ⟨m, hm, hp⟩)
      have hf := Bool.eq_false_iff.mpr h
      have hd : diffLoop view (n :: rest) = true := by simp [diffLoop, hf]
      simp only [hd, true_iff]
      exact ⟨n, List.mem_cons_self _ _, hnone⟩

/-- The result of `DiffNetworkAgainstLocal` in terms of the two networks. -/
theorem DiffNetworkAgainstLocal_eq_true (view network : DBNetwork) :
    DiffNetworkAgainstLocal view network = true ↔
      (network.NumNodes ≠ view.NumNodes ∨
        network.ReplicationFactor ≠ view.ReplicationFactor ∨
        ∃ n ∈ network.Nodes, ∀ m ∈ view.Nodes, ¬ (m.Addr = n.Addr ∧ m.ID = n.ID)) := by
  unfold DiffNetworkAgainstLocal
  by_cases h : network.NumNodes ≠ view.NumNodes ∨
      network.ReplicationFactor ≠ view.ReplicationFactor
  · simp only [h, if_true, true_iff]
    rcases h with h | h
    · exact Or.inl h
    · exact Or.inr (Or.inl h)
  · simp only [h, if_false, diffLoop_iff]
    simp only [not_or] at h
    constructor
    · intro hx; exact Or.inr (Or.inr hx)
    · rintro (h1 | h1 | h1)
      · exact absurd h1 h.1
      · exact absurd h1 h.2
      · exact h1

/-- C13: `DiffNetworkAgainstLocal` returns true exactly when `NumNodes`
differs, or `ReplicationFactor` differs, or some node of the downloaded list
has no node of the local list with both the same `Addr` and the same `ID`; and
replacing the `State` of the nodes of either network in any way leaves the
result unchanged. -/
theorem DiffNetworkAgainstLocal_spec (view network : DBNetwork) :
    (DiffNetworkAgainstLocal view network = true ↔
      (network.NumNodes ≠ view.NumNodes ∨
        network.ReplicationFactor ≠ view.ReplicationFactor ∨
        ∃ n ∈ network.Nodes, ∀ m ∈ view.Nodes, ¬ (m.Addr = n.Addr ∧ m.ID = n.ID))) ∧
    (∀ f g : DBNode → DBNodeState,
      DiffNetworkAgainstLocal (view.withStates f) (network.withStates g) =
        DiffNetworkAgainstLocal view network) := by
  refine ⟨DiffNetworkAgainstLocal_eq_true view network, ?_⟩
  intro f g
  rw [Bool.eq_iff_iff, DiffNetworkAgainstLocal_eq_true, DiffNetworkAgainstLocal_eq_true]
  simp only [DBNetwork.withStates, List.mem_map, exists_exists_and_eq_and,
    forall_exists_index, and_imp, forall_apply_eq_imp_iff₂]

theorem syncLoop_none (nodes : List DBNode) (addr : String) (g_id : Int)
    (hnone : ∀ m ∈ nodes, m.Addr ≠ addr) :
    ∀ (remaining i : Nat), i + remaining ≤ nodes.length →
      syncLoop nodes addr g_id remaining i = some g_id := by
  intro remaining
  induction remaining with
  | zero => intro i _; rfl
  | succ r ih =>
    intro i h
    have hil : i < nodes.length := by omega
    have hne := hnone nodes[i] (List.getElem_mem hil)
    simp only [syncLoop, List.getElem?_eq_getElem hil, hne, if_false]
    exact ih (i + 1) (by omega)

theorem toInt32_ofNat (i : Nat) (h : i < 2 ^ 31) : toInt32 (i : Int) = i := by
  unfold toInt32
  omega

theorem fnvWrite64_eq (data : List UInt8) : ∀ (h : Nat), fnvWrite64 h data = fnv1_64 h data := by
  induction data with
  | nil => intro h; rfl
  | cons b rest ih =>
    intro h
    simp only [fnvWrite64, List.foldl_cons, fnv1_64]
    exact ih _

theorem fnv1_64_lt (data : List UInt8) : ∀ (h : Nat), h < 2 ^ 64 → fnv1_64 h data < 2 ^ 64 := by
  induction data with
  | nil => intro h hh; exact hh
  | cons b rest ih =>
    intro h _
    apply ih
    apply Nat.xor_lt_two_pow (Nat.mod_lt _ (by decide))
    exact Nat.lt_of_lt_of_le (UInt8.toNat_lt b) (by decide)

/-- C14 (as amended): `DBEntry.Hash` is the 64-bit FNV-1 hash of the key's
bytes: from the offset basis 0xcbf29ce484222325, for each byte in order the
state is multiplied by the prime 0x100000001b3 modulo 2^64 and then XORed with
the byte; the result is below 2^64. -/
theorem Hash_is_fnv1 (entry : DBEntry) :
    entry.Hash = fnv1_64 0xcbf29ce484222325 entry.Key.toUTF8.data.toList ∧
    entry.Hash < 2 ^ 64 := by
  have h : entry.Hash = fnv1_64 0xcbf29ce484222325 entry.Key.toUTF8.data.toList := by
    unfold DBEntry.Hash
    rw [fnvWrite64_eq]
    rfl
  exact ⟨h, by rw [h]; exact fnv1_64_lt _ _ (by decide)⟩

/-- C14 (counterexample): for the key "a", `DBEntry.Hash` is
0xaf63bd4c8601b7be, while the FNV-1a hash of the claim is 0xaf63dc4c8601ec8c. -/
theorem Hash_is_not_fnv1a :
    (DBEntry.mk "a" "").Hash = 0xaf63bd4c8601b7be ∧
    fnv1a64 0xcbf29ce484222325 "a".toUTF8.data.toList = 0xaf63dc4c8601ec8c ∧
    ¬ (∀ entry : DBEntry,
      entry.Hash = fnv1a64 0xcbf29ce484222325 entry.Key.toUTF8.data.toList) := by
  refine ⟨by decide, by decide, ?_⟩
  intro h
  exact absurd (h ⟨"a", ""⟩) (by decide)

/-- C15 (as amended): with `NumNodes = 3` and `ReplicationFactor = 2`,
`GetTargetNodes` for the key "apple" returns `[1, 2]`: the hash of the key is
0xA5020EC51C347217 and its start index is 1. `DB_LocalWrite` of the entry
succeeds on the nodes with ID 1 and 2 and returns false on the node with ID 0. -/
theorem apple_window :
    GetTargetNodes exampleNetwork ⟨"apple", "red"⟩ = some [1, 2] ∧
    (DBEntry.mk "apple" "red").Hash = 0xA5020EC51C347217 ∧
    (DBEntry.mk "apple" "red").Hash % 3 = 1 ∧
    (DB_LocalWrite exampleReader ⟨"apple", "red"⟩ 0).map (fun r => r.1) = some false ∧
    (DB_LocalWrite exampleOwner ⟨"apple", "red"⟩ 0).map (fun r => r.1) = some true ∧
    (DB_LocalWrite { exampleOwner with g_id := 2 } ⟨"apple", "red"⟩ 0).map (fun r => r.1) =
      some true := by
  refine ⟨by decide, by decide, by decide, by decide, by decide, by decide⟩

/-- C15 (counterexample): with `NumNodes = 3` and `ReplicationFactor = 2`,
`GetTargetNodes` for the key "apple" does not return `[0, 1]`, the hash of the
key is not 0xBE4D1DA69BA1BA93 and its start index is not 0. -/
theorem apple_window_not_0_1 :
    exampleNetwork.NumNodes = 3 ∧ exampleNetwork.ReplicationFactor = 2 ∧
    GetTargetNodes exampleNetwork ⟨"apple", "red"⟩ ≠ some [0, 1] ∧
    (DBEntry.mk "apple" "red").Hash ≠ 0xBE4D1DA69BA1BA93 ∧
    (DBEntry.mk "apple" "red").Hash % 3 ≠ 0 := by
  refine ⟨rfl, rfl, by decide, by decide, by decide⟩

/-! ## Adding a node: proofs -/

/-- When `NumNodes` at the append is still the value `HandleAddNode` read, the
append keeps `Nodes[i].ID == i`. -/
theorem HealthCheckAndAdd_preserves_I1 (net : DBNetwork) (nodeURL : String) (node : DBNode)
    (probe : Nat → Bool) (hI1 : net.I1) (hNum : net.NumNodes = net.Nodes.length)
    (hT : net.Nodes.length < 2 ^ 31) (hnode : HandleAddNode net nodeURL true = some node) :
    (HealthCheckAndAdd net node probe).I1 := by
  have hid : node.ID = (net.Nodes.length : Int) := by
    unfold HandleAddNode at hnode
    split at hnode
    · exact absurd hnode (by simp)
    · simp only [if_true, Option.some.injEq] at hnode
      rw [← hnode, hNum]
      exact toInt32_ofNat _ hT
  unfold HealthCheckAndAdd
  split
  · apply I1_of_getElem?
    intro k m hk
    simp only [appendNode] at hk
    by_cases hkl : k < net.Nodes.length
    · rw [List.getElem?_append_left hkl] at hk
      exact I1_getElem? net hI1 k m hk
    · rw [List.getElem?_append_right (by omega)] at hk
      have hk0 : k - net.Nodes.length = 0 := by
        by_contra hc
        rw [List.getElem?_eq_none (by simp; omega)] at hk
        exact absurd hk (by simp)
      rw [hk0] at hk
      simp only [List.getElem?_cons_zero, Option.some.injEq] at hk
      rw [← hk]
      simp only [hid]
      congr 1
      omega
  · exact hI1

/-- C16 (evaluation at the failing input): two `/addnode` requests are handled
on a two-node network before either node passes its health check, so both
nodes are created with ID 2. The first append leaves `Nodes[i].ID == i` intact
and `NumNodes = 3`; the second append then adds a node whose ID 2 differs from
`NumNodes = 3`, its index, and `Nodes[i].ID == i` fails. Likewise, when node 1
is removed between a request and its append, the node is appended at index 1
with ID 2. -/
theorem HealthCheckAndAdd_stale_ID :
    ∃ nodeA nodeB net1 net2 net3,
      (DBNetwork.mk [⟨"http://n0", 0, .NODESTATE_READY⟩, ⟨"http://n1", 1, .NODESTATE_READY⟩]
        2 1).I1 ∧
      HandleAddNode ⟨[⟨"http://n0", 0, .NODESTATE_READY⟩, ⟨"http://n1", 1, .NODESTATE_READY⟩],
        2, 1⟩ "http://a" true = some nodeA ∧
      HandleAddNode ⟨[⟨"http://n0", 0, .NODESTATE_READY⟩, ⟨"http://n1", 1, .NODESTATE_READY⟩],
        2, 1⟩ "http://b" true = some nodeB ∧
      HealthCheckAndAdd ⟨[⟨"http://n0", 0, .NODESTATE_READY⟩,
        ⟨"http://n1", 1, .NODESTATE_READY⟩], 2, 1⟩ nodeA (fun _ => true) = net1 ∧
      net1.I1 ∧ net1.NumNodes = 3 ∧
      HealthCheckAndAdd net1 nodeB (fun _ => true) = net2 ∧
      nodeB.ID = 2 ∧
      net2.Nodes = [⟨"http://n0", 0, .NODESTATE_READY⟩, ⟨"http://n1", 1, .NODESTATE_READY⟩,
        ⟨"http://a", 2, .NODESTATE_READY⟩, ⟨"http://b", 2, .NODESTATE_READY⟩] ∧
      ¬ net2.I1 ∧
      DBNetwork.RemoveNode ⟨[⟨"http://n0", 0, .NODESTATE_READY⟩,
        ⟨"http://n1", 1, .NODESTATE_READY⟩], 2, 1⟩ ⟨"http://n1", 1, .NODESTATE_READY⟩ =
        some net3 ∧
      net3.NumNodes = 1 ∧
      (HealthCheckAndAdd net3 nodeA (fun _ => true)).Nodes =
        [⟨"http://n0", 0, .NODESTATE_READY⟩, ⟨"http://a", 2, .NODESTATE_READY⟩] ∧
      ¬ (HealthCheckAndAdd net3 nodeA (fun _ => true)).I1 :=
  ⟨⟨"http://a", 2, .NODESTATE_STARTING⟩, ⟨"http://b", 2, .NODESTATE_STARTING⟩,
    ⟨[⟨"http://n0", 0, .NODESTATE_READY⟩, ⟨"http://n1", 1, .NODESTATE_READY⟩,
      ⟨"http://a", 2, .NODESTATE_READY⟩], 3, 1⟩,
    ⟨[⟨"http://n0", 0, .NODESTATE_READY⟩, ⟨"http://n1", 1, .NODESTATE_READY⟩,
      ⟨"http://a", 2, .NODESTATE_READY⟩, ⟨"http://b", 2, .NODESTATE_READY⟩], 4, 1⟩,
    ⟨[⟨"http://n0", 0, .NODESTATE_READY⟩], 1, 1⟩,
    by decide, by decide, by decide, by decide, by decide, by decide, by decide, by decide,
    by decide, by decide, by decide, by decide, by decide, by decide⟩

/-! ## LRU cache, expiry and recency: proofs -/

/-- C17: for a key `k` that the lookup table binds to an element whose item was
created at time `t` (the recency list holding no element twice): when
`now - t > 300`, `Find(k)` reports a miss, and afterwards `k` is not in the
lookup table and the element is not in the recency list; when `now - t <= 300`,
`Find(k)` reports a hit with the stored value. -/
theorem Find_expiry (cache : LRUCache) (k : String) (element : Nat) (now : Int)
    (hnd : cache.data.Nodup) (hk : GoMap.get cache.lookupTable k = some element) :
    (now - (cache.elements element).createdAt > 300 →
      (cache.Find k now).1.2 = false ∧
      GoMap.get (cache.Find k now).2.lookupTable k = none ∧
      element ∉ (cache.Find k now).2.data) ∧
    (now - (cache.elements element).createdAt ≤ 300 →
      (cache.Find k now).1 = (⟨k, (cache.elements element).data⟩, true)) := by
  constructor
  · intro hexp
    have hexp1 : now - (cache.elements element).createdAt > CACHE_ITEM_EXPIRY_TIME_S := hexp
    simp only [LRUCache.Find, hk, hexp1, if_true, GoMap.get_delete_same, listRemove, true_and]
    intro hmem
    exact ((List.Nodup.mem_erase_iff hnd).mp hmem).1 rfl
  · intro hok
    have hok1 : ¬ (now - (cache.elements element).createdAt > CACHE_ITEM_EXPIRY_TIME_S) := by
      show ¬ (now - (cache.elements element).createdAt > 300)
      omega
    simp only [LRUCache.Find, hk, hok1, if_false]

theorem Find_expiry_witness :
    ((exampleOwner.g_dataCache.Find "apple" 301).1.2 = false ∧
      GoMap.get (exampleOwner.g_dataCache.Find "apple" 301).2.lookupTable "apple" = none ∧
      0 ∉ (exampleOwner.g_dataCache.Find "apple" 301).2.data) ∧
    (exampleOwner.g_dataCache.Find "apple" 300).1 = (⟨"apple", "green"⟩, true) :=
  ⟨(Find_expiry exampleOwner.g_dataCache "apple" 0 301 (by decide) (by decide)).1 (by decide),
    (Find_expiry exampleOwner.g_dataCache "apple" 0 300 (by decide) (by decide)).2 (by decide)⟩

theorem listMoveToBack_eq (data : List Nat) (e : Nat) (hnd : data.Nodup) (he : e ∈ data) :
    listMoveToBack data e = data.erase e ++ [e] := by
  unfold listMoveToBack
  split
  · rename_i hcond
    rcases hcond with hcond | hcond
    · exact absurd he hcond
    · have hsplit := List.dropLast_append_getLast? e hcond
      have hnd1 : (data.dropLast ++ [e]).Nodup := by rw [hsplit]; exact hnd
      have hnot : e ∉ data.dropLast := by
        intro hmem
        have := (List.nodup_append.mp hnd1).2.2
        exact this hmem (List.mem_singleton_self e)
      have herase : data.erase e = data.dropLast := by
        conv_lhs => rw [← hsplit]
        rw [List.erase_append_right _ hnot]
        simp
      rw [herase, hsplit]
  · rfl

theorem Find_hit_state (cache : LRUCache) (k : String) (e : Nat) (now : Int)
    (hk : GoMap.get cache.lookupTable k = some e)
    (hok : ¬ (now - (cache.elements e).createdAt > CACHE_ITEM_EXPIRY_TIME_S)) :
    (cache.Find k now).1 = (⟨k, (cache.elements e).data⟩, true) ∧
    (cache.Find k now).2 = { cache with data := listMoveToBack cache.data e } := by
  simp only [LRUCache.Find, hk, hok, if_false, and_self]

theorem Add_data (cache cache1 : LRUCache) (entry : DBEntry) (now : Int)
    (h : cache.Add entry now = some cache1) :
    ∃ d, d ≤ 1 ∧ cache1.data = (cache.data ++ [cache.next]).drop d ∧
      cache1.next = cache.next + 1 := by
  unfold LRUCache.Add at h
  split at h
  · cases hd : cache.data with
    | nil => simp [LRUCache.evictFront, hd] at h
    | cons x rest =>
      simp only [LRUCache.evictFront, hd, List.head?_cons, Option.map_some',
        Option.some.injEq] at h
      refine ⟨1, Nat.le_refl _, ?_, ?_⟩
      · rw [← h]
        simp [LRUCache.pushBack, listRemove]
      · rw [← h]
        rfl
  · refine ⟨0, Nat.zero_le _, ?_, ?_⟩
    · rw [← Option.some.inj h]
      rfl
    · rw [← Option.some.inj h]
      rfl

/-- The recency list after a sequence of `Add`: the old list followed by newly
allocated elements, with a number of elements dropped from the front. -/
theorem addAll_data (now : Int) : ∀ (entries : List DBEntry) (cache cache2 : LRUCache),
    cache.addAll now entries = some cache2 →
    ∃ m fresh, cache2.data = (cache.data ++ fresh).drop m ∧ ∀ x ∈ fresh, cache.next ≤ x := by
  intro entries
  induction entries with
  | nil =>
    intro cache cache2 h
    simp only [LRUCache.addAll, Option.some.injEq] at h
    exact ⟨0, [], by simp [h], fun x hx => absurd hx (List.not_mem_nil x)⟩
  | cons entry rest ih =>
    intro cache cache2 h
    simp only [LRUCache.addAll] at h
    cases hadd : cache.Add entry now with
    | none => simp [hadd] at h
    | some cache1 =>
      simp only [hadd, Option.some_bind] at h
      obtain ⟨d, hd, hdata, hnext⟩ := Add_data cache cache1 entry now hadd
      obtain ⟨m, fresh, hm, hfresh⟩ := ih cache1 cache2 h
      refine ⟨d + m, cache.next :: fresh, ?_, ?_⟩
      · have hle : d ≤ (cache.data ++ [cache.next]).length := by
          rw [List.length_append, List.length_singleton]
          omega
        have h1 : List.drop d (cache.data ++ [cache.next]) ++ fresh =
            List.drop d (cache.data ++ cache.next :: fresh) := by
          rw [← List.drop_append_of_le_length hle]
          simp
        rw [hm, hdata, h1, List.drop_drop]
      · intro x hx
        rcases List.mem_cons.mp hx with h1 | h1
        · omega
        · have := hfresh x h1
          omega

/-- On a cache whose recency list holds no element twice and only allocated
elements, a `Find` hit on a key whose element is linked into the list moves
that element to the back and keeps the order of the others; and in every
sequence of later `Add` calls that unlinks this element, every other element
of the list has been unlinked as well. -/
theorem Find_hit_recency (cache : LRUCache) (k : String) (e : Nat) (now : Int)
    (hnd : cache.data.Nodup) (hlt : ∀ x ∈ cache.data, x < cache.next)
    (hk : GoMap.get cache.lookupTable k = some e) (he : e ∈ cache.data)
    (hok : now - (cache.elements e).createdAt ≤ 300) :
    (cache.Find k now).1 = (⟨k, (cache.elements e).data⟩, true) ∧
    (cache.Find k now).2.data = cache.data.erase e ++ [e] ∧
    (∀ (t : Int) (entries : List DBEntry) (cache2 : LRUCache),
      (cache.Find k now).2.addAll t entries = some cache2 →
      e ∉ cache2.data → ∀ o ∈ cache.data, o ∉ cache2.data) := by
  have hok1 : ¬ (now - (cache.elements e).createdAt > CACHE_ITEM_EXPIRY_TIME_S) := by
    show ¬ (now - (cache.elements e).createdAt > 300)
    omega
  obtain ⟨hres, hstate⟩ := Find_hit_state cache k e now hk hok1
  have hdata : (cache.Find k now).2.data = cache.data.erase e ++ [e] := by
    rw [hstate]
    exact listMoveToBack_eq cache.data e hnd he
  refine ⟨hres, hdata, ?_⟩
  intro t entries cache2 hadd hgone o ho hin
  obtain ⟨m, fresh, hm, hfresh⟩ := addAll_data t entries _ cache2 hadd
  have hnext : (cache.Find k now).2.next = cache.next := by rw [hstate]
  rw [hdata, List.append_assoc] at hm
  rw [hnext] at hfresh
  have he_not : e ∉ cache.data.erase e := fun h => ((List.Nodup.mem_erase_iff hnd).mp h).1 rfl
  by_cases hml : m ≤ (cache.data.erase e).length
  · apply hgone
    rw [hm, List.drop_append_of_le_length hml]
    simp
  · rw [hm, List.drop_append_eq_append_drop,
      List.drop_eq_nil_of_le (by omega), List.nil_append] at hin
    have hin1 := List.mem_of_mem_drop hin
    rcases List.mem_append.mp hin1 with h1 | h1
    · have hoe : o = e := List.mem_singleton.mp h1
      subst hoe
      have hmem : o ∈ List.drop m (cache.data.erase o ++ ([o] ++ fresh)) := by
        rw [List.drop_append_eq_append_drop, List.drop_eq_nil_of_le (by omega), List.nil_append]
        exact hin
      rw [← hm] at hmem
      exact hgone hmem
    · have := hfresh o h1
      have := hlt o ho
      omega

/-- C18 (evaluation at the failing input): the cache of capacity 2 after `Add`
of three entries with distinct keys. `Find` on each of the three keys reports a
hit, but the element of "k1" is no longer linked into the recency list: after
the hit on "k1" the list is unchanged and its most-recently-used end is still
the element of "k3". -/
theorem Find_hit_unlinked_not_moved :
    ∃ cache, (MakeLRUCache 2).addAll 0 [⟨"k1", "v1"⟩, ⟨"k2", "v2"⟩, ⟨"k3", "v3"⟩] = some cache ∧
      (cache.Find "k2" 0).1 = (⟨"k2", "v2"⟩, true) ∧
      (cache.Find "k3" 0).1 = (⟨"k3", "v3"⟩, true) ∧
      (cache.Find "k1" 0).1 = (⟨"k1", "v1"⟩, true) ∧
      GoMap.get cache.lookupTable "k1" = some 0 ∧
      GoMap.get cache.lookupTable "k3" = some 2 ∧
      cache.data = [1, 2] ∧
      (cache.Find "k1" 0).2.data = [1, 2] ∧
      (cache.Find "k1" 0).2.data.getLast? = some 2 ∧
      0 ∉ (cache.Find "k1" 0).2.data :=
  ⟨_, rfl, by decide, by decide, by decide, by decide, by decide, by decide, by decide,
    by decide, by decide⟩

/-! ## Catch-up: proofs -/

theorem toInt64_of_range (x : Int) (h1 : -(2 ^ 63) ≤ x) (h2 : x < 2 ^ 63) : toInt64 x = x := by
  unfold toInt64
  omega

theorem tmod_gt_neg (d m : Int) (hm : 0 < m) : -m < Int.tmod d m := by
  obtain ⟨km, hkm⟩ : ∃ km : Nat, m = (km : Int) := ⟨m.toNat, by omega⟩
  subst hkm
  cases d with
  | ofNat n =>
    have h := @Int.tmod_nonneg (Int.ofNat n) (km : Int) (Int.ofNat_nonneg n)
    omega
  | negSucc n =>
    have h : Int.tmod (Int.negSucc n) (km : Int) = -(((n + 1) % km : Nat) : Int) := rfl
    rw [h]
    have hlt : (n + 1) % km < km := Nat.mod_lt _ (by omega)
    omega

/-- For a positive modulus the function `Mod` is the non-negative remainder. -/
theorem Mod_eq_emod (d m : Int) (hm : 0 < m) : Mod d m = d % m := by
  have hlt := Int.tmod_lt_of_pos d hm
  have hgt := tmod_gt_neg d m hm
  have hdef := Int.tmod_add_tdiv d m
  unfold Mod
  simp only
  split
  · rename_i hcond
    have hneg : Int.tmod d m < 0 := by
      rcases hcond with h | h
      · exact h.1
      · omega
    have hd : d = (Int.tmod d m + m) + m * (d.tdiv m - 1) := by
      rw [Int.mul_sub, Int.mul_one]
      omega
    conv_rhs => rw [hd]
    rw [Int.add_mul_emod_self_left]
    exact (Int.emod_eq_of_lt (by omega) (by omega)).symm
  · rename_i hcond
    have hnn : 0 ≤ Int.tmod d m := by
      by_contra hc
      exact hcond (Or.inl ⟨by omega, hm⟩)
    have hd : d = Int.tmod d m + m * d.tdiv m := hdef.symm
    conv_rhs => rw [hd]
    rw [Int.add_mul_emod_self_left]
    exact (Int.emod_eq_of_lt hnn hlt).symm

/-- The loop that fills `nodesToAsk`: with a modulus other than zero it
returns a list of twice as many entries as iterations, the forward neighbour of
iteration `j` at position `2j` and the backward one at `2j+1`. -/
theorem nodesToAskLoop_spec (g_id numNodes : Int) (hN : numNodes ≠ 0) :
    ∀ (remaining i : Nat),
      ∃ l, nodesToAskLoop g_id numNodes remaining i = some l ∧
        l.length = 2 * remaining ∧
        ∀ j, j < remaining →
          l[2 * j]? = some (Int.tmod (toInt64 (((i + j : Nat) : Int) + g_id + 1)) numNodes) ∧
          l[2 * j + 1]? = some (Mod (toInt64 (g_id - 1 - ((i + j : Nat) : Int))) numNodes) := by
  intro remaining
  induction remaining with
  | zero =>
    intro i
    exact ⟨[], rfl, rfl, fun j hj => absurd hj (Nat.not_lt_zero j)⟩
  | succ r ih =>
    intro i
    obtain ⟨l, hl, hlen, hget⟩ := ih (i + 1)
    refine ⟨Int.tmod (toInt64 ((i : Int) + g_id + 1)) numNodes ::
        Mod (toInt64 (g_id - 1 - (i : Int))) numNodes :: l,
      by simp only [nodesToAskLoop, hN, if_false, hl, Option.map_some'], ?_, ?_⟩
    · simp only [List.length_cons, hlen]
      omega
    · intro j hj
      cases j with
      | zero => simp
      | succ j =>
        have h := hget j (by omega)
        have h2 : 2 * (j + 1) = 2 * j + 1 + 1 := by omega
        have h3 : i + 1 + j = i + (j + 1) := by omega
        rw [h2]
        simp only [List.getElem?_cons_succ]
        rw [h3] at h
        exact h

/-- The list `nodesToAsk` in closed form. -/
theorem catchupNodesToAsk_eq (net : DBNetwork) (g_id : Int)
    (hN : 1 ≤ net.NumNodes) (hRF : 1 ≤ net.ReplicationFactor)
    (hRF32 : net.ReplicationFactor < 2 ^ 32) (hid : 0 ≤ g_id) (hid62 : g_id < 2 ^ 62) :
    ∃ nodesToAsk, catchupNodesToAsk net g_id = some nodesToAsk ∧
      nodesToAsk.length = 2 * (net.ReplicationFactor - 1) ∧
      ∀ k : Nat, 1 ≤ k → k ≤ net.ReplicationFactor - 1 →
        nodesToAsk[2 * (k - 1)]? = some ((g_id + (k : Int)) % (net.NumNodes : Int)) ∧
        nodesToAsk[2 * (k - 1) + 1]? = some ((g_id - (k : Int)) % (net.NumNodes : Int)) := by
  have hNpos : (0 : Int) < (net.NumNodes : Int) := by omega
  have hNne : (net.NumNodes : Int) ≠ 0 := by omega
  have hwin : toUint32 ((net.ReplicationFactor : Int) - 1) = net.ReplicationFactor - 1 :=
    toUint32_pred _ hRF (by omega)
  obtain ⟨l, hl, hlen, hget⟩ :=
    nodesToAskLoop_spec g_id (net.NumNodes : Int) hNne (net.ReplicationFactor - 1) 0
  refine ⟨l, by simp only [catchupNodesToAsk, hwin, hl], hlen, ?_⟩
  intro k hk1 hk2
  obtain ⟨hf, hb⟩ := hget (k - 1) (by omega)
  have hcast : (((0 + (k - 1) : Nat)) : Int) = (k : Int) - 1 := by omega
  rw [hcast] at hf hb
  have hfa : (k : Int) - 1 + g_id + 1 = g_id + (k : Int) := by omega
  have hba : g_id - 1 - ((k : Int) - 1) = g_id - (k : Int) := by omega
  rw [hfa, toInt64_of_range _ (by omega) (by omega),
    Int.tmod_eq_emod (by omega) (by omega)] at hf
  rw [hba, toInt64_of_range _ (by omega) (by omega), Mod_eq_emod _ _ hNpos] at hb
  exact ⟨hf, hb⟩

/-- The IDs `HandleCatchupCmd` asks are `nodesToAsk` for the view and the own
ID in force after the membership check; when the downloaded network shows no
change these are the view and the ID the node already had. -/
theorem HandleCatchupCmd_asks (s : NodeState) (updated : DBNetwork) :
    (∀ s1 l, HandleCatchupCmd s updated = some (s1, l) →
      catchupNodesToAsk s1.g_dbNetwork s1.g_id = some l) ∧
    (DiffNetworkAgainstLocal s.g_dbNetwork updated = false →
      HandleCatchupCmd s updated =
        (catchupNodesToAsk s.g_dbNetwork s.g_id).map (fun l => (s, l))) := by
  constructor
  · intro s1 l h
    unfold HandleCatchupCmd at h
    cases hpre : (if DiffNetworkAgainstLocal s.g_dbNetwork updated = true then
        (SyncSelfID s updated).map (fun s1 => { s1 with g_dbNetwork := updated })
      else some s) with
    | none => rw [hpre] at h; simp at h
    | some s2 =>
      rw [hpre] at h
      simp only [Option.some_bind, Option.map_eq_some', Prod.mk.injEq] at h
      obtain ⟨l1, hl1, hs, hl⟩ := h
      subst hs hl
      exact hl1
  · intro hd
    simp only [HandleCatchupCmd, hd, Bool.false_eq_true, if_false, Option.some_bind]

/-- C20: for `NumNodes = N >= 1`, `ReplicationFactor = RF >= 1` (a `uint32`)
and an own ID `id >= 0` (below 2^62, so that the `int` sums do not overflow),
`nodesToAsk` has exactly `2(RF-1)` entries: for each `k` from 1 to `RF-1`, at
positions `2(k-1)` and `2(k-1)+1`, the forward neighbour `(id + k) mod N` and
the backward neighbour `(id - k) mod N`; both are remainders in `[0, N)`. A
node whose view and ID these are asks exactly this list in `HandleCatchupCmd`
when the downloaded network shows no change. -/
theorem catchupNodesToAsk_spec (net : DBNetwork) (g_id : Int)
    (hN : 1 ≤ net.NumNodes) (hRF : 1 ≤ net.ReplicationFactor)
    (hRF32 : net.ReplicationFactor < 2 ^ 32) (hid : 0 ≤ g_id) (hid62 : g_id < 2 ^ 62) :
    ∃ nodesToAsk, catchupNodesToAsk net g_id = some nodesToAsk ∧
      nodesToAsk.length = 2 * (net.ReplicationFactor - 1) ∧
      (∀ k : Nat, 1 ≤ k → k ≤ net.ReplicationFactor - 1 →
        nodesToAsk[2 * (k - 1)]? = some ((g_id + (k : Int)) % (net.NumNodes : Int)) ∧
        nodesToAsk[2 * (k - 1) + 1]? = some ((g_id - (k : Int)) % (net.NumNodes : Int)) ∧
        0 ≤ (g_id + (k : Int)) % (net.NumNodes : Int) ∧
        (g_id + (k : Int)) % (net.NumNodes : Int) < (net.NumNodes : Int) ∧
        0 ≤ (g_id - (k : Int)) % (net.NumNodes : Int) ∧
        (g_id - (k : Int)) % (net.NumNodes : Int) < (net.NumNodes : Int)) ∧
      (∀ (s : NodeState) (updated : DBNetwork), s.g_dbNetwork = net → s.g_id = g_id →
        DiffNetworkAgainstLocal net updated = false →
        HandleCatchupCmd s updated = some (s, nodesToAsk)) := by
  obtain ⟨l, hl, hlen, hget⟩ := catchupNodesToAsk_eq net g_id hN hRF hRF32 hid hid62
  have hNpos : (0 : Int) < (net.NumNodes : Int) := by omega
  have hNne : (net.NumNodes : Int) ≠ 0 := by omega
  refine ⟨l, hl, hlen, ?_, ?_⟩
  · intro k hk1 hk2
    exact ⟨(hget k hk1 hk2).1, (hget k hk1 hk2).2, Int.emod_nonneg _ hNne,
      Int.emod_lt_of_pos _ hNpos, Int.emod_nonneg _ hNne, Int.emod_lt_of_pos _ hNpos⟩
  · intro s updated hnet hg hd
    subst hnet hg
    rw [(HandleCatchupCmd_asks s updated).2 hd, hl]
    rfl

theorem catchupNodesToAsk_spec_witness :
    catchupNodesToAsk ⟨[], 5, 3⟩ 0 = some [1, 4, 2, 3] ∧
    ∃ nodesToAsk, catchupNodesToAsk ⟨[], 5, 3⟩ 0 = some nodesToAsk ∧
      nodesToAsk.length = 2 * (3 - 1) ∧
      (∀ k : Nat, 1 ≤ k → k ≤ 3 - 1 →
        nodesToAsk[2 * (k - 1)]? = some (((0 : Int) + (k : Int)) % ((5 : Nat) : Int)) ∧
        nodesToAsk[2 * (k - 1) + 1]? = some (((0 : Int) - (k : Int)) % ((5 : Nat) : Int)) ∧
        0 ≤ ((0 : Int) + (k : Int)) % ((5 : Nat) : Int) ∧
        ((0 : Int) + (k : Int)) % ((5 : Nat) : Int) < ((5 : Nat) : Int) ∧
        0 ≤ ((0 : Int) - (k : Int)) % ((5 : Nat) : Int) ∧
        ((0 : Int) - (k : Int)) % ((5 : Nat) : Int) < ((5 : Nat) : Int)) ∧
      (∀ (s : NodeState) (updated : DBNetwork), s.g_dbNetwork = ⟨[], 5, 3⟩ → s.g_id = 0 →
        DiffNetworkAgainstLocal ⟨[], 5, 3⟩ updated = false →
        HandleCatchupCmd s updated = some (s, nodesToAsk)) :=
  ⟨by decide,
    catchupNodesToAsk_spec ⟨[], 5, 3⟩ 0 (by decide) (by decide) (by decide) (by decide)
      (by decide)⟩

/-- The list `nodesToAsk` for a view with `1 <= RF <= NumNodes` and an own ID
`id < NumNodes` contains every other ID of each placement window that contains
`id`. -/
theorem catchupNodesToAsk_window (net : DBNetwork) (id : Nat) (entry : DBEntry) (targets : List Nat)
    (hRF : 1 ≤ net.ReplicationFactor) (hle : net.ReplicationFactor ≤ net.NumNodes)
    (h32 : net.NumNodes < 2 ^ 32) (hid : id < net.NumNodes)
    (ht : GetTargetNodes net entry = some targets) (hself : id ∈ targets) :
    ∃ nodesToAsk, catchupNodesToAsk net (id : Int) = some nodesToAsk ∧
      ∀ t ∈ targets, t ≠ id → (t : Int) ∈ nodesToAsk := by
  have hN : 1 ≤ net.NumNodes := by omega
  obtain ⟨l, hl, hlen, hget⟩ := catchupNodesToAsk_eq net (id : Int) hN hRF (by omega)
    (by omega) (by omega)
  refine ⟨l, hl, ?_⟩
  rw [GetTargetNodes_eq net entry hN h32] at ht
  have ht1 := Option.some.inj ht
  intro t htm hne
  rw [← ht1] at htm hself
  obtain ⟨b, hb, hbt⟩ := List.mem_map.mp htm
  obtain ⟨a, ha, hai⟩ := List.mem_map.mp hself
  rw [List.mem_range] at hb ha
  have hab : a ≠ b := by
    intro e
    subst e
    exact hne (hbt.symm.trans hai)
  by_cases hlt : a < b
  · have h := (hget (b - a) (by omega) (by omega)).1
    have hval : ((id : Int) + ((b - a : Nat) : Int)) % (net.NumNodes : Int) = (t : Int) := by
      rw [← hbt, ← hai]
      have h1 : ((entry.Hash % net.NumNodes + a) % net.NumNodes + (b - a)) % net.NumNodes =
          (entry.Hash % net.NumNodes + b) % net.NumNodes := by
        rw [Nat.mod_add_mod]
        congr 1
        omega
      rw [← h1]
      push_cast
      rfl
    rw [hval] at h
    exact List.getElem?_mem h
  · have hba : b < a := by omega
    have h := (hget (a - b) (by omega) (by omega)).2
    have hval : ((id : Int) - ((a - b : Nat) : Int)) % (net.NumNodes : Int) = (t : Int) := by
      rw [← hbt, ← hai]
      have h1 : (((entry.Hash % net.NumNodes + a : Nat) : Int) - ((a - b : Nat) : Int)) =
          ((entry.Hash % net.NumNodes + b : Nat) : Int) := by omega
      rw [Int.natCast_mod, Int.sub_emod, Int.emod_emod, ← Int.sub_emod, h1, ← Int.natCast_mod]
    rw [hval] at h
    exact List.getElem?_mem h

theorem toUint32_natCast (t : Nat) (h : t < 2 ^ 32) : toUint32 (t : Int) = t := by
  unfold toUint32
  omega

/-- The second loop of `SyncSelfID` does not index beyond the list when
`NumNodes` is at most the length of `Nodes`. -/
theorem syncLoop_total (nodes : List DBNode) (addr : String) (g_id : Int) :
    ∀ (remaining i : Nat), i + remaining ≤ nodes.length →
      ∃ id, syncLoop nodes addr g_id remaining i = some id := by
  intro remaining
  induction remaining with
  | zero => intro i _; exact ⟨g_id, rfl⟩
  | succ remaining ih =>
    intro i hi
    have hlt : i < nodes.length := by omega
    simp only [syncLoop, List.getElem?_eq_getElem hlt]
    split
    · exact ⟨_, rfl⟩
    · exact ih (i + 1) (by omega)

/-- C19: the IDs that `HandleCatchupCmd` passes to `GetChunkFromNode` cover the
other replicas. When the downloaded network shows no change, the handler
returns with the view and the own ID unchanged; when it shows a change and
`NumNodes` of the downloaded network is at most the length of its `Nodes`,
`SyncSelfID` returns and the handler goes on with the downloaded network as its
view and the own ID `SyncSelfID` has set. In both cases, if the view in force
has `1 <= RF <= NumNodes` (both `uint32`) and the own ID is `id < NumNodes`,
then for every entry whose placement window under that view contains `id`,
every other ID `t` of the window is in the list `nodesToAsk` the handler
builds, and `uint32(nodeID) == t` for one of the calls
`GetChunkFromNode(uint32(nodeID))` it makes. -/
theorem HandleCatchupCmd_asks_window (s : NodeState) (updated : DBNetwork) (id : Nat)
    (entry : DBEntry) (targets : List Nat) :
    (DiffNetworkAgainstLocal s.g_dbNetwork updated = false →
      1 ≤ s.g_dbNetwork.ReplicationFactor →
      s.g_dbNetwork.ReplicationFactor ≤ s.g_dbNetwork.NumNodes →
      s.g_dbNetwork.NumNodes < 2 ^ 32 →
      s.g_id = (id : Int) → id < s.g_dbNetwork.NumNodes →
      GetTargetNodes s.g_dbNetwork entry = some targets → id ∈ targets →
      ∃ nodesToAsk, HandleCatchupCmd s updated = some (s, nodesToAsk) ∧
        ∀ t ∈ targets, t ≠ id →
          (t : Int) ∈ nodesToAsk ∧ t ∈ nodesToAsk.map (fun nodeID => toUint32 nodeID)) ∧
    (DiffNetworkAgainstLocal s.g_dbNetwork updated = true →
      updated.NumNodes ≤ updated.Nodes.length →
      ∃ s1, SyncSelfID s updated = some s1 ∧
        (1 ≤ updated.ReplicationFactor →
          updated.ReplicationFactor ≤ updated.NumNodes →
          updated.NumNodes < 2 ^ 32 →
          s1.g_id = (id : Int) → id < updated.NumNodes →
          GetTargetNodes updated entry = some targets → id ∈ targets →
          ∃ nodesToAsk,
            HandleCatchupCmd s updated =
              some ({ s1 with g_dbNetwork := updated }, nodesToAsk) ∧
            ∀ t ∈ targets, t ≠ id →
              (t : Int) ∈ nodesToAsk ∧
                t ∈ nodesToAsk.map (fun nodeID => toUint32 nodeID))) := by
  have hcover : ∀ (net : DBNetwork) (l : List Int),
      1 ≤ net.NumNodes → net.NumNodes < 2 ^ 32 →
      GetTargetNodes net entry = some targets →
      (∀ t ∈ targets, t ≠ id → (t : Int) ∈ l) →
      ∀ t ∈ targets, t ≠ id →
        (t : Int) ∈ l ∧ t ∈ l.map (fun nodeID => toUint32 nodeID) := by
    intro net l hN h32 ht hl t htm hne
    have hmem := hl t htm hne
    refine ⟨hmem, List.mem_map.mpr ⟨(t : Int), hmem, ?_⟩⟩
    rw [GetTargetNodes_eq net entry hN h32] at ht
    rw [← Option.some.inj ht] at htm
    obtain ⟨b, _, hbt⟩ := List.mem_map.mp htm
    have hlt : t < net.NumNodes := by
      rw [← hbt]
      exact Nat.mod_lt _ (by omega)
    exact toUint32_natCast t (by omega)
  constructor
  · intro hd hRF hle h32 hid hlt ht hself
    obtain ⟨l, hl, hmem⟩ :=
      catchupNodesToAsk_window s.g_dbNetwork id entry targets hRF hle h32 hlt ht hself
    refine ⟨l, ?_, hcover s.g_dbNetwork l (by omega) h32 ht hmem⟩
    rw [(HandleCatchupCmd_asks s updated).2 hd, hid, hl]
    rfl
  · intro hd hlen
    obtain ⟨newID, hsync⟩ :=
      syncLoop_total updated.Nodes (findOwnAddr s.g_id s.g_dbNetwork.Nodes) s.g_id
        updated.NumNodes 0 (by omega)
    refine ⟨{ s with g_id := newID }, by simp only [SyncSelfID, hsync, Option.map_some'], ?_⟩
    intro hRF hle h32 hid hlt ht hself
    obtain ⟨l, hl, hmem⟩ :=
      catchupNodesToAsk_window updated id entry targets hRF hle h32 hlt ht hself
    refine ⟨l, ?_, hcover updated l (by omega) h32 ht hmem⟩
    simp only at hid
    simp only [HandleCatchupCmd, hd, if_true, SyncSelfID, hsync, Option.map_some',
      Option.some_bind, hid, hl]

theorem HandleCatchupCmd_asks_window_witness :
    (HandleCatchupCmd exampleOwner exampleNetwork).map (fun r => r.2) = some [2, 0] ∧
    (HandleCatchupCmd exampleOwner { exampleNetwork with ReplicationFactor := 3 }).map
        (fun r => (r.1.g_id, r.1.g_dbNetwork.ReplicationFactor, r.2)) =
      some (1, 3, [2, 0, 0, 2]) ∧
    (∃ nodesToAsk, HandleCatchupCmd exampleOwner exampleNetwork =
        some (exampleOwner, nodesToAsk) ∧
      ∀ t ∈ ([1, 2] : List Nat), t ≠ 1 →
        (t : Int) ∈ nodesToAsk ∧ t ∈ nodesToAsk.map (fun nodeID => toUint32 nodeID)) ∧
    ∃ nodesToAsk,
      HandleCatchupCmd exampleOwner { exampleNetwork with ReplicationFactor := 3 } =
        some ({ exampleOwner with
          g_dbNetwork := { exampleNetwork with ReplicationFactor := 3 } }, nodesToAsk) ∧
      ∀ t ∈ ([1, 2, 0] : List Nat), t ≠ 1 →
        (t : Int) ∈ nodesToAsk ∧ t ∈ nodesToAsk.map (fun nodeID => toUint32 nodeID) := by
  refine ⟨by decide, by decide, ?_, ?_⟩
  · exact (HandleCatchupCmd_asks_window exampleOwner exampleNetwork 1 ⟨"apple", "red"⟩ [1, 2]).1
      (by decide) (by decide) (by decide) (by decide) (by decide) (by decide) (by decide)
      (by decide)
  · obtain ⟨s1, hs1, h⟩ :=
      (HandleCatchupCmd_asks_window exampleOwner { exampleNetwork with ReplicationFactor := 3 } 1
        ⟨"apple", "red"⟩ [1, 2, 0]).2 (by decide) (by decide)
    have hsync : SyncSelfID exampleOwner { exampleNetwork with ReplicationFactor := 3 } =
        some exampleOwner := by
      have hloop : syncLoop exampleNetwork.Nodes (findOwnAddr 1 exampleNetwork.Nodes) 1 3 0 =
          some 1 := by decide
      exact congrArg (Option.map (fun id => { exampleOwner with g_id := id })) hloop
    rw [hsync] at hs1
    have hs := Option.some.inj hs1
    subst hs
    exact h (by decide) (by decide) (by decide) (by decide) (by decide) (by decide) (by decide)

/-! ## Health monitor: proofs -/

theorem monitorLoop_watchers_ge (probe : String → Option Nat) :
    ∀ (nodes : List DBNode) (i0 : Nat), ∀ x ∈ (monitorLoop probe nodes i0).2, i0 ≤ x := by
  intro nodes
  induction nodes with
  | nil => intro i0 x hx; simp [monitorLoop] at hx
  | cons node rest ih =>
    intro i0 x hx
    simp only [monitorLoop] at hx
    split at hx
    · have := ih (i0 + 1) x hx
      omega
    · simp only at hx
      split at hx
      · rcases List.mem_cons.mp hx with h | h
        · omega
        · have := ih (i0 + 1) x h
          omega
      · have := ih (i0 + 1) x hx
        omega

/-- The inner loop of `MonitorNodes`, node by node. -/
theorem monitorLoop_spec (probe : String → Option Nat) :
    ∀ (nodes : List DBNode) (i0 j : Nat) (node : DBNode), nodes[j]? = some node →
      (monitorLoop probe nodes i0).1[j]? =
        some (if node.State = .NODESTATE_DEAD then node
          else if probe node.Addr = some 200 then { node with State := .NODESTATE_READY }
          else { node with State := .NODESTATE_UNREACHABLE }) ∧
      (i0 + j ∈ (monitorLoop probe nodes i0).2 ↔
        node.State ≠ .NODESTATE_DEAD ∧ probe node.Addr ≠ some 200) := by
  intro nodes
  induction nodes with
  | nil => intro i0 j node h; simp at h
  | cons n rest ih =>
    intro i0 j node h
    have hge := monitorLoop_watchers_ge probe rest (i0 + 1)
    cases j with
    | zero =>
      simp only [List.getElem?_cons_zero, Option.some.injEq] at h
      subst h
      have hnot : i0 ∉ (monitorLoop probe rest (i0 + 1)).2 := by
        intro hmem
        have := hge i0 hmem
        omega
      by_cases hdead : n.State = .NODESTATE_DEAD
      · simp [monitorLoop, hdead, hnot]
      · by_cases hok : probe n.Addr = some 200
        · simp [monitorLoop, hdead, DBNode.UpdateState, hok, hnot]
        · simp [monitorLoop, hdead, DBNode.UpdateState, hok]
    | succ j =>
      simp only [List.getElem?_cons_succ] at h
      obtain ⟨h1, h2⟩ := ih (i0 + 1) j node h
      have hidx : i0 + (j + 1) = i0 + 1 + j := by omega
      have hne : i0 + 1 + j ≠ i0 := by omega
      rw [hidx]
      constructor
      · simp only [monitorLoop]
        split
        · simpa using h1
        · simpa using h1
      · rw [← h2]
        simp only [monitorLoop]
        split
        · rfl
        · simp only
          split
          · simp [hne]
          · rfl

theorem monitorLoop_length (probe : String → Option Nat) :
    ∀ (nodes : List DBNode) (i0 : Nat), (monitorLoop probe nodes i0).1.length = nodes.length := by
  intro nodes
  induction nodes with
  | nil => intro i0; rfl
  | cons n rest ih =>
    intro i0
    simp only [monitorLoop]
    split <;> simp [ih]

/-- C21 (as amended): in a health cycle a DEAD node is left as it is and gets
no watcher; a non-DEAD node becomes READY, without a watcher, when its probe
returns 200, and becomes UNREACHABLE otherwise, and then a replacement watcher
is started for it whatever its state was before, also when it was already
UNREACHABLE. The cycle changes nothing else of the network. -/
theorem MonitorNodes_spec (net : DBNetwork) (probe : String → Option Nat) (i : Nat)
    (node : DBNode) (hnode : net.Nodes[i]? = some node) :
    (MonitorNodes net probe).1.Nodes.length = net.Nodes.length ∧
    (MonitorNodes net probe).1.NumNodes = net.NumNodes ∧
    (MonitorNodes net probe).1.ReplicationFactor = net.ReplicationFactor ∧
    (node.State = .NODESTATE_DEAD →
      (MonitorNodes net probe).1.Nodes[i]? = some node ∧ i ∉ (MonitorNodes net probe).2) ∧
    (node.State ≠ .NODESTATE_DEAD → probe node.Addr = some 200 →
      (MonitorNodes net probe).1.Nodes[i]? = some { node with State := .NODESTATE_READY } ∧
      i ∉ (MonitorNodes net probe).2) ∧
    (node.State ≠ .NODESTATE_DEAD → probe node.Addr ≠ some 200 →
      (MonitorNodes net probe).1.Nodes[i]? =
        some { node with State := .NODESTATE_UNREACHABLE } ∧
      i ∈ (MonitorNodes net probe).2) := by
  obtain ⟨h1, h2⟩ := monitorLoop_spec probe net.Nodes 0 i node hnode
  rw [Nat.zero_add] at h2
  refine ⟨monitorLoop_length probe net.Nodes 0, rfl, rfl, ?_, ?_, ?_⟩
  · intro hdead
    refine ⟨by simpa [MonitorNodes, hdead] using h1, ?_⟩
    intro hmem
    exact (h2.mp hmem).1 hdead
  · intro hdead hok
    refine ⟨by simpa [MonitorNodes, hdead, hok] using h1, ?_⟩
    intro hmem
    exact (h2.mp hmem).2 hok
  · intro hdead hok
    exact ⟨by simpa [MonitorNodes, hdead, hok] using h1, h2.mpr ⟨hdead, hok⟩⟩

theorem MonitorNodes_spec_witness :
    MonitorNodes
        ⟨[⟨"http://n0", 0, .NODESTATE_STARTING⟩, ⟨"http://n1", 1, .NODESTATE_READY⟩,
          ⟨"http://n2", 2, .NODESTATE_UNREACHABLE⟩, ⟨"http://n3", 3, .NODESTATE_DEAD⟩], 4, 2⟩
        (fun addr => if addr = "http://n0" then some 200 else none) =
      (⟨[⟨"http://n0", 0, .NODESTATE_READY⟩, ⟨"http://n1", 1, .NODESTATE_UNREACHABLE⟩,
          ⟨"http://n2", 2, .NODESTATE_UNREACHABLE⟩, ⟨"http://n3", 3, .NODESTATE_DEAD⟩], 4, 2⟩,
        [1, 2]) ∧
    2 ∈ (MonitorNodes
        ⟨[⟨"http://n0", 0, .NODESTATE_STARTING⟩, ⟨"http://n1", 1, .NODESTATE_READY⟩,
          ⟨"http://n2", 2, .NODESTATE_UNREACHABLE⟩, ⟨"http://n3", 3, .NODESTATE_DEAD⟩], 4, 2⟩
        (fun addr => if addr = "http://n0" then some 200 else none)).2 :=
  ⟨by decide,
    ((MonitorNodes_spec
      ⟨[⟨"http://n0", 0, .NODESTATE_STARTING⟩, ⟨"http://n1", 1, .NODESTATE_READY⟩,
        ⟨"http://n2", 2, .NODESTATE_UNREACHABLE⟩, ⟨"http://n3", 3, .NODESTATE_DEAD⟩], 4, 2⟩
      (fun addr => if addr = "http://n0" then some 200 else none) 2
      ⟨"http://n2", 2, .NODESTATE_UNREACHABLE⟩ (by decide)).2.2.2.2.2
      (by decide) (by decide)).2⟩

/-- C21 (counterexample): a node that is already UNREACHABLE and whose probe
fails again gets a further replacement watcher: it is not true that a watcher
is started only for nodes that were in another state before the probe. -/
theorem MonitorNodes_respawns_watcher :
    MonitorNodes ⟨[⟨"http://n0", 0, .NODESTATE_UNREACHABLE⟩], 1, 1⟩ (fun _ => none) =
      (⟨[⟨"http://n0", 0, .NODESTATE_UNREACHABLE⟩], 1, 1⟩, [0]) ∧
    ¬ (∀ (net : DBNetwork) (probe : String → Option Nat) (i : Nat) (node : DBNode),
      net.Nodes[i]? = some node → i ∈ (MonitorNodes net probe).2 →
      node.State ≠ .NODESTATE_UNREACHABLE) := by
  refine ⟨by decide, ?_⟩
  intro h
  exact h ⟨[⟨"http://n0", 0, .NODESTATE_UNREACHABLE⟩], 1, 1⟩ (fun _ => none) 0
    ⟨"http://n0", 0, .NODESTATE_UNREACHABLE⟩ (by decide) (by decide) rfl

/-! ## Membership check and removal without the ID invariant: proofs -/

/-- C22: for a local and a downloaded network that both satisfy
`Nodes[i].ID == i` and `NumNodes == len(Nodes)`, when
`DiffNetworkAgainstLocal` returns false the two networks have the same
`NumNodes`, the same `ReplicationFactor`, lists of the same length and, at
every index, nodes with the same `Addr` and the same `ID`. -/
theorem DiffNetworkAgainstLocal_false (view network : DBNetwork)
    (hvI1 : view.I1) (hnI1 : network.I1)
    (hvNum : view.NumNodes = view.Nodes.length)
    (hnNum : network.NumNodes = network.Nodes.length)
    (hdiff : DiffNetworkAgainstLocal view network = false) :
    network.NumNodes = view.NumNodes ∧
    network.ReplicationFactor = view.ReplicationFactor ∧
    network.Nodes.length = view.Nodes.length ∧
    ∀ (i : Nat) (n : DBNode), network.Nodes[i]? = some n →
      ∃ m, view.Nodes[i]? = some m ∧ m.Addr = n.Addr ∧ m.ID = n.ID := by
  have hnot : ¬ (network.NumNodes ≠ view.NumNodes ∨
      network.ReplicationFactor ≠ view.ReplicationFactor ∨
      ∃ n ∈ network.Nodes, ∀ m ∈ view.Nodes, ¬ (m.Addr = n.Addr ∧ m.ID = n.ID)) := by
    intro h
    have := (DiffNetworkAgainstLocal_eq_true view network).mpr h
    rw [hdiff] at this
    exact absurd this (by simp)
  simp only [not_or, not_not, not_exists, not_and, not_forall] at hnot
  obtain ⟨hN, hRF, hall⟩ := hnot
  refine ⟨hN, hRF, by omega, ?_⟩
  intro i n hn
  have hmem : n ∈ network.Nodes := List.getElem?_mem hn
  obtain ⟨m, hm, hma, hmid⟩ := hall n hmem
  obtain ⟨k, hk, hkm⟩ := List.getElem_of_mem hm
  have hkm1 : view.Nodes[k]? = some m := by rw [List.getElem?_eq_getElem hk, hkm]
  have h1 := I1_getElem? view hvI1 k m hkm1
  have h2 := I1_getElem? network hnI1 i n hn
  have hki : k = i := by
    rw [h1, h2] at hmid
    omega
  subst hki
  exact ⟨m, hkm1, hma, hmid⟩

theorem DiffNetworkAgainstLocal_false_witness :
    DiffNetworkAgainstLocal exampleNetwork
      (exampleNetwork.withStates (fun _ => .NODESTATE_UNREACHABLE)) = false ∧
    (exampleNetwork.withStates (fun _ => .NODESTATE_UNREACHABLE)).NumNodes =
      exampleNetwork.NumNodes ∧
    (exampleNetwork.withStates (fun _ => .NODESTATE_UNREACHABLE)).ReplicationFactor =
      exampleNetwork.ReplicationFactor ∧
    (exampleNetwork.withStates (fun _ => .NODESTATE_UNREACHABLE)).Nodes.length =
      exampleNetwork.Nodes.length ∧
    ∀ (i : Nat) (n : DBNode),
      (exampleNetwork.withStates (fun _ => .NODESTATE_UNREACHABLE)).Nodes[i]? = some n →
      ∃ m, exampleNetwork.Nodes[i]? = some m ∧ m.Addr = n.Addr ∧ m.ID = n.ID :=
  ⟨by decide,
    DiffNetworkAgainstLocal_false exampleNetwork
      (exampleNetwork.withStates (fun _ => .NODESTATE_UNREACHABLE))
      (by decide) (by decide) rfl rfl (by decide)⟩

theorem findDeleteIndex_notfound (nodes : List DBNode) (id : Int)
    (hnone : ∀ n ∈ nodes, n.ID ≠ id) :
    ∀ (remaining i : Nat), i + remaining ≤ nodes.length →
      findDeleteIndex nodes id remaining i = some (-1) := by
  intro remaining
  induction remaining with
  | zero => intro i _; rfl
  | succ r ih =>
    intro i h
    have hil : i < nodes.length := by omega
    have hne := hnone nodes[i] (List.getElem_mem hil)
    simp only [findDeleteIndex, List.getElem?_eq_getElem hil, hne, if_false]
    exact ih (i + 1) (by omega)

theorem exists_first_with_ID (id : Int) : ∀ (nodes : List DBNode),
    (∃ n ∈ nodes, n.ID = id) →
    ∃ (j : Nat) (n : DBNode), nodes[j]? = some n ∧ n.ID = id ∧
      ∀ k m, k < j → nodes[k]? = some m → m.ID ≠ id := by
  intro nodes
  induction nodes with
  | nil => rintro ⟨n, hn, _⟩; simp at hn
  | cons a rest ih =>
    rintro ⟨n, hn, hid⟩
    by_cases ha : a.ID = id
    · exact ⟨0, a, by simp, ha, fun k m hk _ => absurd hk (Nat.not_lt_zero k)⟩
    · have hrest : ∃ n ∈ rest, n.ID = id := by
        rcases List.mem_cons.mp hn with h | h
        · rw [h] at hid; exact absurd hid ha
        · exact ⟨n, h, hid⟩
      obtain ⟨j, n1, hj, hid1, hbefore⟩ := ih hrest
      refine ⟨j + 1, n1, by simpa using hj, hid1, ?_⟩
      intro k m hk hkm
      cases k with
      | zero =>
        simp only [List.getElem?_cons_zero, Option.some.injEq] at hkm
        rw [← hkm]
        exact ha
      | succ k =>
        simp only [List.getElem?_cons_succ] at hkm
        exact hbefore k m (by omega) hkm

/-- The method `RemoveNode` on a list other than a single node, when the node at
index `j` is the first one with the ID of the node passed in: it returns. -/
theorem RemoveNode_found (net : DBNetwork) (node n : DBNode) (j : Nat)
    (hNum : net.NumNodes = net.Nodes.length) (hne : net.Nodes.length ≠ 1)
    (h32 : net.Nodes.length < 2 ^ 32)
    (hj : net.Nodes[j]? = some n) (hid : n.ID = node.ID)
    (hbefore : ∀ k m, k < j → net.Nodes[k]? = some m → m.ID ≠ node.ID) :
    net.RemoveNode node = some
      { Nodes := net.Nodes.take j ++ (net.Nodes.drop (j + 1)).map decrementID,
        NumNodes := net.Nodes.length - 1,
        ReplicationFactor := net.ReplicationFactor } := by
  have hjl : j < net.Nodes.length := by
    by_contra hc
    rw [List.getElem?_eq_none (by omega)] at hj
    exact absurd hj (by simp)
  have hfind : findDeleteIndex net.Nodes node.ID net.NumNodes 0 = some (j : Int) :=
    findDeleteIndex_found net.Nodes node.ID j n hj hid hbefore net.NumNodes 0
      (Nat.zero_le _) (by omega)
  have hsplit : net.Nodes.take j ++ net.Nodes[j] :: net.Nodes.drop (j + 1) = net.Nodes := by
    rw [← List.drop_eq_getElem_cons hjl, List.take_append_drop]
  have hcompact : compactLoop (net.Nodes.length - 1 - j) j net.Nodes =
      some (net.Nodes.take j ++ (net.Nodes.drop (j + 1)).map decrementID ++ [net.Nodes[j]]) := by
    have h := compactLoop_append (net.Nodes.drop (j + 1)) (net.Nodes.take j) net.Nodes[j]
    rw [hsplit, List.length_drop, List.length_take, Nat.min_eq_left (by omega)] at h
    rw [← h]
    congr 1
    omega
  have hlen : (net.Nodes.take j ++ (net.Nodes.drop (j + 1)).map decrementID).length =
      net.Nodes.length - 1 := by
    simp only [List.length_append, List.length_take, List.length_map, List.length_drop]
    omega
  have hnum : toUint32 ((net.NumNodes : Int) - 1) = net.Nodes.length - 1 := by
    rw [hNum]
    exact toUint32_pred _ (by omega) (by omega)
  unfold DBNetwork.RemoveNode
  simp only [hne, if_false, hfind, Int.toNat_ofNat, hcompact, hnum]
  have hneg : ¬ ((j : Int) < 0) := by omega
  simp only [hneg, if_false]
  have htake : List.take
      ((net.Nodes.take j ++ (net.Nodes.drop (j + 1)).map decrementID ++ [net.Nodes[j]]).length - 1)
      (net.Nodes.take j ++ (net.Nodes.drop (j + 1)).map decrementID ++ [net.Nodes[j]]) =
      net.Nodes.take j ++ (net.Nodes.drop (j + 1)).map decrementID := by
    apply List.take_left'
    simp only [List.length_append, List.length_singleton]
    omega
  rw [htake]
  simp only [DBNetwork.OnUpdated, hlen, le_refl, if_true, Option.some_bind]

/-- C23: for a controller network with `NumNodes == len(Nodes)` (a `uint32`):
when the list has at least two nodes, `RemoveNode` returns, that is, it
completes without an out-of-range access, exactly when some node of the list
has the ID of the node passed in; when the list has exactly one node,
`RemoveNode` returns the network with an empty list and `NumNodes` decremented
to zero, whatever node is passed in. -/
theorem RemoveNode_completes (net : DBNetwork) (node : DBNode)
    (hNum : net.NumNodes = net.Nodes.length) (h32 : net.Nodes.length < 2 ^ 32) :
    (2 ≤ net.Nodes.length →
      ((net.RemoveNode node).isSome = true ↔ ∃ n ∈ net.Nodes, n.ID = node.ID)) ∧
    (net.Nodes.length = 1 →
      net.RemoveNode node = some
        { Nodes := [], NumNodes := net.NumNodes - 1,
          ReplicationFactor := net.ReplicationFactor } ∧
      net.NumNodes - 1 = 0) := by
  constructor
  · intro hM
    have hne : net.Nodes.length ≠ 1 := by omega
    constructor
    · intro hsome
      by_contra hnone
      have hall : ∀ n ∈ net.Nodes, n.ID ≠ node.ID := fun n hn hid => hnone ⟨n, hn, hid⟩
      have hfind := findDeleteIndex_notfound net.Nodes node.ID hall net.NumNodes 0 (by omega)
      have hpanic : net.RemoveNode node = none := by
        unfold DBNetwork.RemoveNode
        simp [hne, hfind]
      rw [hpanic] at hsome
      exact absurd hsome (by simp)
    · intro hex
      obtain ⟨j, n, hj, hid, hbefore⟩ := exists_first_with_ID node.ID net.Nodes hex
      rw [RemoveNode_found net node n j hNum hne h32 hj hid hbefore]
      rfl
  · intro h1
    have hnum1 : net.NumNodes - 1 = 0 := by omega
    refine ⟨?_, hnum1⟩
    rw [RemoveNode_single net node hNum h1, hnum1]

theorem RemoveNode_completes_witness :
    exampleNetwork.RemoveNode ⟨"http://gone", 7, .NODESTATE_DEAD⟩ = none ∧
    (exampleNetwork.RemoveNode ⟨"http://gone", 2, .NODESTATE_DEAD⟩).isSome = true ∧
    ((exampleNetwork.RemoveNode ⟨"http://gone", 7, .NODESTATE_DEAD⟩).isSome = true ↔
      ∃ n ∈ exampleNetwork.Nodes, n.ID = (DBNode.mk "http://gone" 7 .NODESTATE_DEAD).ID) :=
  ⟨by decide, by decide,
    (RemoveNode_completes exampleNetwork ⟨"http://gone", 7, .NODESTATE_DEAD⟩ rfl (by decide)).1
      (by decide)⟩

end DistDB
